import Mathlib

/-!
# Verification of the curator-benchmarking model-invocation core

Shallow embedding of the repository's model-invocation and tool-calling layer:

* `src/src/tool_executor.py`   — `ToolExecutor`
* `src/src/openrouter_client.py` — `OpenRouterClient` (plain and tool-aware paths)
* `src/src/bedrock_client.py`  — `BedrockClient`
* `src/src/model_client.py`    — `ModelClient` router

Python dict/list/scalar values that flow through these components are modelled
by the `Json` type below (object keys are strings, numbers are integers; the
model omits floats).  The Python standard library `json.dumps(v, indent=2)`
and `json.loads` used by the executor are modelled by `Json.dumps` /
`Json.loads`.  The HTTP transport (requests / boto3) is modelled by an
environment function giving the outcome of each network request in order.
-/

mutual

/-- JSON values (and Python dict/list/scalar values handled by the code).
Mutual inductive so that all functions over it are structurally recursive. -/
inductive Json where
  | null : Json
  | bool : Bool → Json
  | num : Int → Json
  | str : List Char → Json
  | arr : JsonList → Json
  | obj : JsonObj → Json

inductive JsonList where
  | nil : JsonList
  | cons : Json → JsonList → JsonList

inductive JsonObj where
  | nil : JsonObj
  | cons : List Char → Json → JsonObj → JsonObj

end

namespace Json

/-- Python `d.get(k)` on an object: first binding of the key, if any. -/
def objGet : JsonObj → List Char → Option Json
  | .nil, _ => none
  | .cons k v rest, key => if k = key then some v else objGet rest key

/-- Python `d.get(k)` where `d` is this value when it is a dict (`None` result
is modelled as `none`; the surrounding code only applies this to dicts). -/
def get (j : Json) (key : List Char) : Option Json :=
  match j with
  | .obj kvs => objGet kvs key
  | _ => none

/-- Python `d.get(k, default)`. -/
def getD (j : Json) (key : List Char) (d : Json) : Json :=
  (j.get key).getD d

/-- Python truthiness of a JSON-shaped value: `None`, `False`, `0`, `""`,
`[]` and `{}` are falsy, everything else truthy. -/
def truthy : Json → Bool
  | .null => false
  | .bool b => b
  | .num n => n != 0
  | .str s => !s.isEmpty
  | .arr .nil => false
  | .arr (.cons _ _) => true
  | .obj .nil => false
  | .obj (.cons _ _ _) => true

end Json

/-! ## Decimal and hexadecimal digit printing (models Python `str(int)` and
the `\uXXXX` escapes of `json.dumps(..., ensure_ascii=True)`). -/

/-- The decimal digit character for `d` (`d < 10`). -/
def digitCh : Nat → Char
  | 0 => '0' | 1 => '1' | 2 => '2' | 3 => '3' | 4 => '4'
  | 5 => '5' | 6 => '6' | 7 => '7' | 8 => '8' | _ => '9'

/-- Most-significant-first decimal digits of `n`; fuel-structural so that it
reduces in the kernel.  Complete whenever `n ≤ fuel`. -/
def natReprAux : Nat → Nat → List Char
  | _, 0 => []
  | 0, _ + 1 => []
  | f + 1, n + 1 => natReprAux f ((n + 1) / 10) ++ [digitCh ((n + 1) % 10)]

/-- Python `str(n)` for a natural number. -/
def natRepr (n : Nat) : List Char :=
  if n = 0 then ['0'] else natReprAux n n

/-- Python `str(n)` for an integer. -/
def intRepr (n : Int) : List Char :=
  if n < 0 then '-' :: natRepr (-n).toNat else natRepr n.toNat

/-- Lowercase hexadecimal digit character for `d < 16`. -/
def hexDigitCh : Nat → Char
  | 0 => '0' | 1 => '1' | 2 => '2' | 3 => '3' | 4 => '4'
  | 5 => '5' | 6 => '6' | 7 => '7' | 8 => '8' | 9 => '9'
  | 10 => 'a' | 11 => 'b' | 12 => 'c' | 13 => 'd' | 14 => 'e' | _ => 'f'

/-- Four lowercase hex digits of `n < 0x10000` (the `XXXX` of `\uXXXX`). -/
def hex4 (n : Nat) : List Char :=
  [hexDigitCh (n / 4096 % 16), hexDigitCh (n / 256 % 16),
   hexDigitCh (n / 16 % 16), hexDigitCh (n % 16)]

/-! ## `json.dumps(v, indent=2)` model -/

/-- Escaping of one character inside a JSON string literal, following
CPython `json.encoder` with `ensure_ascii=True`: `"` and `\` get a
backslash, the five named control escapes are used, all other characters
outside printable ASCII are `\uXXXX`-escaped (with surrogate pairs above
the BMP). -/
def escapeChar (c : Char) : List Char :=
  if c = '"' then ['\\', '"']
  else if c = '\\' then ['\\', '\\']
  else if c = '\n' then ['\\', 'n']
  else if c = '\t' then ['\\', 't']
  else if c = '\r' then ['\\', 'r']
  else if c.toNat = 8 then ['\\', 'b']
  else if c.toNat = 12 then ['\\', 'f']
  else if 32 ≤ c.toNat ∧ c.toNat ≤ 126 then [c]
  else if c.toNat < 65536 then '\\' :: 'u' :: hex4 c.toNat
  else
    '\\' :: 'u' :: hex4 (55296 + (c.toNat - 65536) / 1024) ++
      ('\\' :: 'u' :: hex4 (56320 + (c.toNat - 65536) % 1024))

/-- Escaped body of a JSON string literal. -/
def escapeStr : List Char → List Char
  | [] => []
  | c :: cs => escapeChar c ++ escapeStr cs

/-- A complete JSON string literal, quotes included. -/
def dumpStr (s : List Char) : List Char :=
  '"' :: escapeStr s ++ ['"']

/-- `n` spaces of indentation. -/
def spaces (n : Nat) : List Char := List.replicate n ' '

mutual

/-- `json.dumps(v, indent=2)` at nesting level `lvl`:  containers open the
bracket, newline-separate the items indented one level deeper, and close the
bracket at the current level; empty containers print on one line. -/
def dumpVal (lvl : Nat) : Json → List Char
  | .null => 'n' :: 'u' :: 'l' :: 'l' :: []
  | .bool true => 't' :: 'r' :: 'u' :: 'e' :: []
  | .bool false => 'f' :: 'a' :: 'l' :: 's' :: 'e' :: []
  | .num n => intRepr n
  | .str s => dumpStr s
  | .arr .nil => ['[', ']']
  | .arr (.cons x xs) =>
      '[' :: '\n' :: dumpArrItems (lvl + 1) (.cons x xs) ++
        ('\n' :: spaces (2 * lvl) ++ [']'])
  | .obj .nil => ['{', '}']
  | .obj (.cons k v kvs) =>
      '{' :: '\n' :: dumpObjItems (lvl + 1) (.cons k v kvs) ++
        ('\n' :: spaces (2 * lvl) ++ ['}'])

/-- Comma-and-newline separated array items, each preceded by its indent. -/
def dumpArrItems (lvl : Nat) : JsonList → List Char
  | .nil => []
  | .cons x .nil => spaces (2 * lvl) ++ dumpVal lvl x
  | .cons x (.cons y ys) =>
      spaces (2 * lvl) ++ dumpVal lvl x ++
        (',' :: '\n' :: dumpArrItems lvl (.cons y ys))

/-- Comma-and-newline separated object members, `"key": value` each. -/
def dumpObjItems (lvl : Nat) : JsonObj → List Char
  | .nil => []
  | .cons k v .nil => spaces (2 * lvl) ++ dumpStr k ++ (':' :: ' ' :: dumpVal lvl v)
  | .cons k v (.cons k2 v2 kvs) =>
      spaces (2 * lvl) ++ dumpStr k ++ (':' :: ' ' :: dumpVal lvl v) ++
        (',' :: '\n' :: dumpObjItems lvl (.cons k2 v2 kvs))

end

/-- `json.dumps(v, indent=2)` as a Lean `String`. -/
def Json.dumps (j : Json) : String := String.mk (dumpVal 0 j)

/-- Python `str(v)` for the scalar values a tool handler may return
(the executor only applies this to non-dict, non-list results). -/
def pyStr : Json → String
  | .null => "None"
  | .bool true => "True"
  | .bool false => "False"
  | .num n => String.mk (intRepr n)
  | .str s => String.mk s
  | .arr xs => String.mk (dumpVal 0 (.arr xs))
  | .obj kvs => String.mk (dumpVal 0 (.obj kvs))

/-! ## `json.loads` model

Recursive-descent parser following CPython `json.decoder` (strict mode),
restricted like the rest of the model to integer numbers.  Container
recursion is fuelled; `Json.loads` supplies one unit of fuel per input
character plus one, which the round-trip theorem shows is always enough for
printed values. -/

/-- JSON whitespace (`' \t\n\r'`). -/
def isWsCh (c : Char) : Bool :=
  c = ' ' || c = '\t' || c = '\n' || c = '\r'

/-- Drop leading JSON whitespace. -/
def skipWs : List Char → List Char
  | [] => []
  | c :: cs => if isWsCh c then skipWs cs else c :: cs

/-- ASCII decimal digit test. -/
def isDigCh (c : Char) : Bool :=
  48 ≤ c.toNat && c.toNat ≤ 57

/-- Split the longest digit prefix from the input. -/
def takeDigits : List Char → List Char × List Char
  | [] => ([], [])
  | c :: cs =>
      if isDigCh c then
        let p := takeDigits cs
        (c :: p.1, p.2)
      else ([], c :: cs)

/-- Value of a most-significant-first digit string, accumulator style. -/
def digitsToNat (acc : Nat) : List Char → Nat
  | [] => acc
  | c :: cs => digitsToNat (acc * 10 + (c.toNat - 48)) cs

/-- Value of one hexadecimal digit character, if it is one. -/
def hexVal (c : Char) : Option Nat :=
  if 48 ≤ c.toNat ∧ c.toNat ≤ 57 then some (c.toNat - 48)
  else if 97 ≤ c.toNat ∧ c.toNat ≤ 102 then some (c.toNat - 87)
  else if 65 ≤ c.toNat ∧ c.toNat ≤ 70 then some (c.toNat - 55)
  else none

/-- Value of a `\uXXXX` escape body. -/
def hex4Val (a b c d : Char) : Option Nat :=
  match hexVal a, hexVal b, hexVal c, hexVal d with
  | some x, some y, some z, some w => some (((x * 16 + y) * 16 + z) * 16 + w)
  | _, _, _, _ => none

/-- Decode one escape character name to its character, for the named
single-character escapes of the JSON grammar. -/
def escName (e : Char) : Option Char :=
  if e = '"' then some '"'
  else if e = '\\' then some '\\'
  else if e = '/' then some '/'
  else if e = 'n' then some '\n'
  else if e = 't' then some '\t'
  else if e = 'r' then some '\r'
  else if e = 'b' then some (Char.ofNat 8)
  else if e = 'f' then some (Char.ofNat 12)
  else none

/-- Decode the low-surrogate half `\uXXXX` following a high surrogate
`h`, combining the pair as CPython does. -/
def unescapeLow (h : Nat) : List Char → Option (Char × List Char)
  | b1 :: b2 :: a2 :: b3 :: c3 :: d2 :: r3 =>
      if b1 = '\\' ∧ b2 = 'u' then
        match hex4Val a2 b3 c3 d2 with
        | none => none
        | some l =>
            if 56320 ≤ l ∧ l < 57344 then
              some (Char.ofNat (65536 + (h - 55296) * 1024 + (l - 56320)), r3)
            else none
      else none
  | _ => none

/-- Decode the four hex digits of a `\uXXXX` escape (and a following low
surrogate when they denote a high surrogate). -/
def unescapeU : List Char → Option (Char × List Char)
  | a :: b :: c2 :: d :: r2 =>
      match hex4Val a b c2 d with
      | none => none
      | some h =>
          if 55296 ≤ h ∧ h < 56320 then unescapeLow h r2
          else if 56320 ≤ h ∧ h < 57344 then none
          else some (Char.ofNat h, r2)
  | _ => none

/-- Decode what follows a backslash: the decoded character and the input
after the escape. -/
def unescapeOne : List Char → Option (Char × List Char)
  | [] => none
  | e :: r =>
      match escName e with
      | some decoded => some (decoded, r)
      | none => if e = 'u' then unescapeU r else none

/-- Parse the body of a JSON string literal after its opening quote,
returning the decoded characters and the input after the closing quote;
strict mode rejects raw control characters.  Fuelled (one unit per decoded
character) so that the recursion is structural; complete whenever the fuel
exceeds the number of decoded characters. -/
def parseStrBody : Nat → List Char → Option (List Char × List Char)
  | 0, _ => none
  | _ + 1, [] => none
  | fuel + 1, c :: rest =>
      if c = '"' then some ([], rest)
      else if c = '\\' then
        match unescapeOne rest with
        | none => none
        | some dr => (parseStrBody fuel dr.2).map fun p => (dr.1 :: p.1, p.2)
      else if c.toNat < 32 then none
      else (parseStrBody fuel rest).map fun p => (c :: p.1, p.2)

mutual

/-- Parse one JSON value (fuelled). -/
def parseVal : Nat → List Char → Option (Json × List Char)
  | 0, _ => none
  | _ + 1, 'n' :: 'u' :: 'l' :: 'l' :: rest => some (.null, rest)
  | _ + 1, 't' :: 'r' :: 'u' :: 'e' :: rest => some (.bool true, rest)
  | _ + 1, 'f' :: 'a' :: 'l' :: 's' :: 'e' :: rest => some (.bool false, rest)
  | fuel + 1, '"' :: rest => (parseStrBody (fuel + 1) rest).map fun p => (.str p.1, p.2)
  | fuel + 1, '[' :: rest =>
      let r1 := skipWs rest
      if r1.head? = some ']' then some (.arr .nil, r1.tail)
      else (parseArrItems fuel r1).map fun p => (.arr p.1, p.2)
  | fuel + 1, '{' :: rest =>
      let r1 := skipWs rest
      if r1.head? = some '}' then some (.obj .nil, r1.tail)
      else (parseObjItems fuel r1).map fun p => (.obj p.1, p.2)
  | _ + 1, '-' :: rest =>
      let p := takeDigits rest
      if p.1.isEmpty then none
      else some (.num (-(digitsToNat 0 p.1 : Nat)), p.2)
  | _ + 1, c :: rest =>
      if isDigCh c then
        let p := takeDigits (c :: rest)
        some (.num (digitsToNat 0 p.1 : Nat), p.2)
      else none
  | _ + 1, [] => none

/-- Parse the items of a non-empty array, positioned at the first value. -/
def parseArrItems : Nat → List Char → Option (JsonList × List Char)
  | 0, _ => none
  | fuel + 1, input =>
      match parseVal fuel input with
      | none => none
      | some (v, r) =>
          match skipWs r with
          | ',' :: r2 =>
              (parseArrItems fuel (skipWs r2)).map fun p => (.cons v p.1, p.2)
          | ']' :: r2 => some (.cons v .nil, r2)
          | _ => none

/-- Parse the members of a non-empty object, positioned at the first key. -/
def parseObjItems : Nat → List Char → Option (JsonObj × List Char)
  | 0, _ => none
  | fuel + 1, input =>
      match input with
      | '"' :: rest =>
          match parseStrBody (fuel + 1) rest with
          | none => none
          | some (k, r) =>
              match skipWs r with
              | ':' :: r2 =>
                  match parseVal fuel (skipWs r2) with
                  | none => none
                  | some (v, r3) =>
                      match skipWs r3 with
                      | ',' :: r4 =>
                          (parseObjItems fuel (skipWs r4)).map fun p =>
                            (.cons k v p.1, p.2)
                      | '}' :: r4 => some (.cons k v .nil, r4)
                      | _ => none
              | _ => none
      | _ => none

end

/-- `json.loads(s)`: parse one value surrounded by optional whitespace;
anything left over is an error. -/
def Json.loads (s : String) : Option Json :=
  match parseVal (s.data.length + 1) (skipWs s.data) with
  | some (v, rest) => if skipWs rest = [] then some v else none
  | none => none

/-! ## ToolExecutor (`src/src/tool_executor.py`)

`Tool` / `ToolRegistry` live in `src/tool.py`, which is not part of the
provided sources; they are modelled from the spec (§3, §4.1): a registry maps
a tool name to a schema-described tool with an executable handler, and
`get(name)` returns the tool or a not-found signal without raising.  A
handler that raises is modelled by `Except.error` carrying `str(e)`. -/

/-- Single quote character, used in the executor's formatted messages. -/
def sglQuote : String := String.singleton (Char.ofNat 39)

/-- Modelled from the spec: a named, schema-described callable unit
(`src/tool.py` is absent from the sources). -/
structure Tool where
  name : String
  description : String := ""
  inputSchema : Json := .obj .nil
  execute : Json → Except String Json

/-- Modelled from the spec: `ToolRegistry.get` as a total lookup returning
the tool or a not-found signal. -/
def ToolRegistry : Type := String → Option Tool

/-- One tool-call request dict (`toolUseId` / `name` / `input` keys, each
possibly absent, as read by `ToolExecutor.execute_tool_call` via `.get`). -/
structure ToolCall where
  name : Option String := none
  toolUseId : Option Json := none
  input : Option Json := none

/-- One tool result dict (`toolUseId` / `status` / `content`), the content
being a list of text blocks. -/
structure ToolCallResult where
  toolUseId : Json
  status : String
  content : List String

/-- One entry of `ToolExecutor.execution_history` (optional keys modelled
with `Option`: the not-found record carries no `parameters`/`result`). -/
structure ExecRecord where
  tool_name : String
  tool_use_id : Option Json := none
  parameters : Option Json := none
  status : String
  result : Option Json := none
  error : Option String := none

/-- Python `tool_use_id or "unknown"`: the id when truthy, else the default. -/
def idOrUnknown (id : Option Json) : Json :=
  match id with
  | some j => if j.truthy then j else .str "unknown".data
  | none => .str "unknown".data

/-- The executor's serialization of a successful handler result:
`json.dumps(result, indent=2)` for a dict or list, `str(result)` otherwise. -/
def serializeToolResult (result : Json) : String :=
  match result with
  | .obj kvs => Json.dumps (.obj kvs)
  | .arr xs => Json.dumps (.arr xs)
  | r => pyStr r

/-- `ToolExecutor.execute_tool_call`: one tool call against the registry,
returning the result dict and the updated execution history. -/
def executeToolCall (reg : ToolRegistry) (hist : List ExecRecord) (tc : ToolCall) :
    ToolCallResult × List ExecRecord :=
  let parameters := tc.input.getD (.obj .nil)
  let missing : ToolCallResult × List ExecRecord :=
    ({ toolUseId := idOrUnknown tc.toolUseId, status := "error",
       content := ["Tool name missing from tool call"] }, hist)
  match tc.name with
  | none => missing
  | some tname =>
      if tname = "" then missing
      else
        match reg tname with
        | none =>
            let errorMsg := "Tool " ++ sglQuote ++ tname ++ sglQuote ++ " not found in registry"
            ({ toolUseId := idOrUnknown tc.toolUseId, status := "error",
               content := [errorMsg] },
             hist ++ [{ tool_name := tname, tool_use_id := tc.toolUseId,
                        status := "error", error := some errorMsg }])
        | some tool =>
            match tool.execute parameters with
            | .ok result =>
                ({ toolUseId := idOrUnknown tc.toolUseId, status := "success",
                   content := [serializeToolResult result] },
                 hist ++ [{ tool_name := tname, tool_use_id := tc.toolUseId,
                            parameters := some parameters, status := "success",
                            result := some result }])
            | .error cause =>
                let errorMsg := "Error executing tool " ++ sglQuote ++ tname ++ sglQuote ++ ": " ++ cause
                ({ toolUseId := idOrUnknown tc.toolUseId, status := "error",
                   content := [errorMsg] },
                 hist ++ [{ tool_name := tname, tool_use_id := tc.toolUseId,
                            parameters := some parameters, status := "error",
                            error := some errorMsg }])

/-- `ToolExecutor.execute_tool_calls`: execute each request in order,
threading the execution history. -/
def executeToolCalls (reg : ToolRegistry) (hist : List ExecRecord) :
    List ToolCall → List ToolCallResult × List ExecRecord
  | [] => ([], hist)
  | tc :: rest =>
      let r := executeToolCall reg hist tc
      let rs := executeToolCalls reg r.2 rest
      (r.1 :: rs.1, rs.2)

/-- `ToolExecutor.get_execution_history` (returns a copy; copying is the
identity in the pure model). -/
def getExecutionHistory (hist : List ExecRecord) : List ExecRecord := hist

/-- `ToolExecutor.clear_history`. -/
def clearHistory (_hist : List ExecRecord) : List ExecRecord := []

/-! ## OpenRouter client (`src/src/openrouter_client.py`)

The HTTP transport is the environment: `env n` is the outcome of the
`n`-th `requests.post` of the invocation (a parsed JSON body, an
`HTTPError` raised by `raise_for_status` with `str(e)`, the status code and
the parsed error body if `e.response.json()` succeeds on a dict, or any
other exception with its `str(e)`).  Response bodies are modelled as `Json`
dicts, the shape the code expects; sleeps and attempt counts are collected
in a `Trace`. -/

/-- Outcome of one HTTP request as seen by the client's `try` block. -/
inductive HttpOutcome where
  | ok (body : Json)
  | httpError (status : Nat) (estr : String) (ebody : Option Json)
  | exn (estr : String)

/-- The normalized result dict every backend returns; optional keys are
`Option` (key absent ⟺ `none`). -/
structure InvocationResult where
  success : Bool
  content : Option Json := none
  model_id : String
  usage : Option Json := none
  attempt : Option Nat := none
  raw_response : Option Json := none
  error : Option Json := none
  error_code : Option Json := none
  tool_calls : Option (List ToolCall) := none
  tool_execution_history : Option (List ExecRecord) := none

/-- Observable schedule of one invocation: backoff sleeps in order, number
of retry-loop iterations entered, number of `execute_tool_calls` calls. -/
structure Trace where
  sleeps : List Nat := []
  attempts : Nat := 0
  execCalls : Nat := 0

/-- Python `str(n)` as a Lean string. -/
def natStr (n : Nat) : String := String.mk (natRepr n)

/-- Substring occurrence helper for Python's `in` on strings. -/
def containsSub (needle : List Char) : List Char → Bool
  | [] => needle.isEmpty
  | c :: tl => needle.isPrefixOf (c :: tl) || containsSub needle tl

/-- Python `needle in hay` on strings. -/
def strContains (hay needle : String) : Bool := containsSub needle.data hay.data

/-- A conversation message dict (absent keys are `none`). -/
structure Msg where
  role : String
  content : Option Json := none
  tool_call_id : Option Json := none
  tool_calls : Option Json := none

/-- Initial conversation: optional system message (only when the
instructions string is truthy), then the user prompt. -/
def buildMessages (sysIns : String) (prompt : String) : List Msg :=
  (if sysIns = "" then [] else [{ role := "system", content := some (.str sysIns.data) }]) ++
    [{ role := "user", content := some (.str prompt.data) }]

/-- Error message of the plain path's non-retryable HTTP branch:
`e.response.json().get('error', {}).get('message', str(e))`, falling back to
`str(e)` when the body is not JSON, not a dict, or the chain raises. -/
def orPlainErrMsg (estr : String) (ebody : Option Json) : Json :=
  match ebody with
  | some (.obj kvs) =>
      match Json.objGet kvs "error".data with
      | some (.obj ekvs) => ((Json.objGet ekvs "message".data).getD (.str estr.data))
      | some _ => .str estr.data
      | none => .str estr.data
  | _ => .str estr.data

/-- Plain-path content extraction (`choices[0].message`, `content` key taken
verbatim when present). -/
def orExtractContent (rb : Json) : Json :=
  match rb.get "choices".data with
  | some (.arr (.cons choice _)) =>
      let message := choice.getD "message".data (.obj .nil)
      match message.get "content".data with
      | some v => v
      | none => .str []
  | _ => .str []

/-- Tool-path content extraction: same shape but the `content` value must
also be truthy (`if 'content' in message and message['content']`). -/
def orToolsExtractContent (rb : Json) : Json :=
  match rb.get "choices".data with
  | some (.arr (.cons choice _)) =>
      let message := choice.getD "message".data (.obj .nil)
      match message.get "content".data with
      | some v => if v.truthy then v else .str []
      | none => .str []
  | _ => .str []

/-- Usage normalization: `prompt_tokens`/`completion_tokens`/`total_tokens`
with default 0, renamed to the backend-agnostic key names. -/
def orUsage (rb : Json) : Json :=
  let usage := rb.getD "usage".data (.obj .nil)
  .obj (.cons "inputTokens".data (usage.getD "prompt_tokens".data (.num 0))
    (.cons "outputTokens".data (usage.getD "completion_tokens".data (.num 0))
      (.cons "totalTokens".data (usage.getD "total_tokens".data (.num 0)) .nil)))

/-- `OpenRouterClient.invoke_model`, plain path: the retry loop.  The first
argument of the recursion is the number of remaining `range(max_retries)`
iterations, the second the current Python `attempt` index; falling off the
loop yields the `Max retries exceeded` dict. -/
def orPlainLoop (env : Nat → HttpOutcome) (modelId : String) (maxRetries : Nat) :
    Nat → Nat → InvocationResult × Trace
  | 0, _ =>
      ({ success := false, error := some (.str "Max retries exceeded".data),
         model_id := modelId }, {})
  | remaining + 1, attempt =>
      match env attempt with
      | .ok body =>
          ({ success := true, content := some (orExtractContent body),
             model_id := modelId, usage := some (orUsage body),
             attempt := some (attempt + 1), raw_response := some body },
           { attempts := 1 })
      | .httpError status estr ebody =>
          if status = 429 ∧ attempt < maxRetries - 1 then
            let r := orPlainLoop env modelId maxRetries remaining (attempt + 1)
            (r.1, { r.2 with
                      sleeps := 2 ^ attempt :: r.2.sleeps,
                      attempts := r.2.attempts + 1 })
          else
            ({ success := false, error := some (orPlainErrMsg estr ebody),
               error_code := some (.str ("HTTP_" ++ natStr status).data),
               model_id := modelId, attempt := some (attempt + 1) },
             { attempts := 1 })
      | .exn estr =>
          ({ success := false, error := some (.str estr.data),
             model_id := modelId, attempt := some (attempt + 1) },
           { attempts := 1 })

/-- Plain (tool-free) invocation. -/
def orInvokePlain (env : Nat → HttpOutcome) (modelId : String) (maxRetries : Nat) :
    InvocationResult × Trace :=
  orPlainLoop env modelId maxRetries maxRetries 0

/-- `json.loads` of a string-valued `arguments` field (`{}` on parse
failure), other values taken as-is. -/
def parseToolArgs (arguments : Json) : Json :=
  match arguments with
  | .str s =>
      match Json.loads (String.mk s) with
      | some v => v
      | none => .obj .nil
  | j => j

/-- `_extract_tool_calls_from_response`, inner loop over one message's
`tool_calls` list; `count` is `len(tool_calls)` so far, used to synthesize
a call id when `id` is absent or falsy. -/
def extractFromToolCallList (count : Nat) : JsonList → List ToolCall
  | .nil => []
  | .cons tcj rest =>
      let fn := tcj.getD "function".data (.obj .nil)
      let arguments := parseToolArgs (fn.getD "arguments".data (.str ['{', '}']))
      let callId : Json :=
        match tcj.get "id".data with
        | some j => if j.truthy then j else .str ("call_" ++ natStr count).data
        | none => .str ("call_" ++ natStr count).data
      let nameV : Option String :=
        match fn.get "name".data with
        | some (.str s) => some (String.mk s)
        | _ => none
      { name := nameV, toolUseId := some callId, input := some arguments } ::
        extractFromToolCallList (count + 1) rest

/-- `_extract_tool_calls_from_response`, loop over all choices. -/
def extractFromChoices (count : Nat) : JsonList → List ToolCall
  | .nil => []
  | .cons choice rest =>
      let message := choice.getD "message".data (.obj .nil)
      match message.get "tool_calls".data with
      | some (.arr tcs) =>
          let here := extractFromToolCallList count tcs
          here ++ extractFromChoices (count + here.length) rest
      | _ => extractFromChoices count rest

/-- `_extract_tool_calls_from_response`. -/
def extractToolCalls (rb : Json) : List ToolCall :=
  match rb.get "choices".data with
  | some (.arr choices) => extractFromChoices 0 choices
  | _ => []

/-- Raw `tool_calls` payload copied onto the assistant message
(`choices[0].message.tool_calls` when present, else the empty list). -/
def orAssistantToolCallsPayload (rb : Json) : Json :=
  match rb.get "choices".data with
  | some (.arr (.cons choice _)) =>
      match choice.get "message".data with
      | some msg =>
          match msg.get "tool_calls".data with
          | some v => v
          | none => .arr .nil
      | none => .arr .nil
  | _ => .arr .nil

/-- `_convert_tools_to_openrouter_format`. -/
def convertToolsToOpenRouterFormat : List Tool → JsonList
  | [] => .nil
  | t :: ts =>
      .cons (.obj (.cons "type".data (.str "function".data)
        (.cons "function".data
          (.obj (.cons "name".data (.str t.name.data)
            (.cons "description".data (.str t.description.data)
              (.cons "parameters".data t.inputSchema .nil)))) .nil)))
        (convertToolsToOpenRouterFormat ts)

/-- Hard ceiling of the tool-use loop (`max_tool_iterations`). -/
def maxToolIterations : Nat := 10

/-- Mutable state shared by the tool loop across retries: the conversation,
`tool_iterations`, `all_tool_calls`, the executor's history, the index of
the next HTTP request, the number of `execute_tool_calls` calls so far, and
the last parsed response body (the Python local `response_body`). -/
structure ToolState where
  messages : List Msg
  toolIterations : Nat := 0
  allToolCalls : List ToolCall := []
  history : List ExecRecord := []
  reqIdx : Nat := 0
  execCalls : Nat := 0
  lastBody : Option Json := none

/-- Outcome of one `try` block of the tool-aware path: the `while` loop
finished with a terminal body, or an exception left it early. -/
inductive ToolTryOutcome where
  | done (bodyUsed : Option Json) (st : ToolState)
  | httpErr (status : Nat) (estr : String) (ebody : Option Json) (st : ToolState)
  | hitExn (estr : String) (st : ToolState)

/-- The `while tool_iterations < max_tool_iterations` loop.  The fuel is an
artifact of totality: it is called with `maxToolIterations`, which bounds
the remaining iterations (`toolIterations` only grows), so the fuel-0 case
coincides with the loop condition failing. -/
def orToolsWhile (env : Nat → HttpOutcome) (reg : ToolRegistry) :
    Nat → ToolState → ToolTryOutcome
  | 0, st => .done st.lastBody st
  | fuel + 1, st =>
      if st.toolIterations < maxToolIterations then
        match env st.reqIdx with
        | .ok body =>
            let st1 := { st with reqIdx := st.reqIdx + 1, lastBody := some body }
            let tcs := extractToolCalls body
            match tcs with
            | [] => .done (some body) st1
            | _ =>
                let er := executeToolCalls reg st1.history tcs
                let assistantMsg : Msg :=
                  { role := "assistant",
                    tool_calls := some (orAssistantToolCallsPayload body) }
                let toolMsgs := er.1.map fun r =>
                  { role := "tool", tool_call_id := some r.toolUseId,
                    content := some (.str (String.join r.content).data) : Msg }
                orToolsWhile env reg fuel
                  { st1 with
                    messages := (st1.messages ++ [assistantMsg]) ++ toolMsgs,
                    toolIterations := st1.toolIterations + 1,
                    allToolCalls := st1.allToolCalls ++ tcs,
                    history := er.2,
                    execCalls := st1.execCalls + 1 }
        | .httpError status estr ebody =>
            .httpErr status estr ebody { st with reqIdx := st.reqIdx + 1 }
        | .exn estr => .hitExn estr { st with reqIdx := st.reqIdx + 1 }
      else .done st.lastBody st

/-- `_invoke_model_with_tools`: the retry loop around the tool loop.  Note
the loop state (conversation, iteration count, collected tool calls,
executor history) persists across retries, exactly as the Python locals
declared outside the `for attempt` loop do. -/
def orToolsRetry (env : Nat → HttpOutcome) (reg : ToolRegistry) (modelId : String)
    (maxRetries : Nat) : Nat → Nat → ToolState → InvocationResult × Trace
  | 0, _, st =>
      ({ success := false, error := some (.str "Max retries exceeded".data),
         model_id := modelId, tool_calls := some st.allToolCalls },
       { execCalls := st.execCalls })
  | remaining + 1, attempt, st =>
      match orToolsWhile env reg maxToolIterations st with
      | .done bodyOpt st1 =>
          let body := bodyOpt.getD (.obj .nil)
          ({ success := true, content := some (orToolsExtractContent body),
             model_id := modelId, usage := some (orUsage body),
             attempt := some (attempt + 1), raw_response := some body,
             tool_calls := some st1.allToolCalls,
             tool_execution_history := some (getExecutionHistory st1.history) },
           { attempts := 1, execCalls := st1.execCalls })
      | .httpErr status estr _ebody st1 =>
          if status = 429 ∧ attempt < maxRetries - 1 then
            let r := orToolsRetry env reg modelId maxRetries remaining (attempt + 1) st1
            (r.1, { r.2 with
                      sleeps := 2 ^ attempt :: r.2.sleeps,
                      attempts := r.2.attempts + 1 })
          else
            ({ success := false, error := some (.str estr.data),
               error_code := some (.str ("HTTP_" ++ natStr status).data),
               model_id := modelId, attempt := some (attempt + 1),
               tool_calls := some st1.allToolCalls },
             { attempts := 1, execCalls := st1.execCalls })
      | .hitExn estr st1 =>
          ({ success := false, error := some (.str estr.data),
             model_id := modelId, attempt := some (attempt + 1),
             tool_calls := some st1.allToolCalls },
           { attempts := 1, execCalls := st1.execCalls })

/-- `_invoke_model_with_tools` entry: fresh loop state over the initial
conversation and the executor's current history. -/
def orInvokeWithTools (env : Nat → HttpOutcome) (reg : ToolRegistry)
    (hist0 : List ExecRecord) (modelId prompt sysIns : String)
    (maxRetries : Nat) : InvocationResult × Trace :=
  orToolsRetry env reg modelId maxRetries maxRetries 0
    { messages := buildMessages sysIns prompt, history := hist0 }

/-- Configuration (only the piece the invocation paths read). -/
structure Config where
  defaultSystemInstructions : String := ""

/-- `OpenRouterClient.invoke_model`: defaults the system instructions, then
takes the tool-aware path iff `tools` is a non-empty list and a tool
executor is supplied (`if tools and tool_executor`). -/
def orInvokeModel (env : Nat → HttpOutcome) (cfg : Config) (modelId prompt : String)
    (systemInstructions : Option String) (maxRetries : Nat)
    (tools : Option (List Tool)) (toolExecutor : Option (ToolRegistry × List ExecRecord)) :
    InvocationResult × Trace :=
  let sysIns := systemInstructions.getD cfg.defaultSystemInstructions
  match tools, toolExecutor with
  | some (_ :: _), some te =>
      orInvokeWithTools env te.1 te.2 modelId prompt sysIns maxRetries
  | _, _ => orInvokePlain env modelId maxRetries

/-! ## Bedrock client (`src/src/bedrock_client.py`)

The transport (bearer-token `requests.post` with its boto3 fallback, or
plain boto3) is the environment: `env n` is what the `n`-th pass through
the `try` block observes — a parsed response body, a boto3 `ClientError`
with its `Error.Code` classification and `str(e)`, an HTTP error with
status, `str(e)` and the parsed error body when available, or any other
exception. -/

/-- Outcome of one attempt of `BedrockClient.invoke_model`'s `try` block. -/
inductive BedrockOutcome where
  | ok (body : Json)
  | clientError (code : String) (estr : String)
  | httpError (status : Nat) (estr : String) (ebody : Option Json)
  | exn (estr : String)

/-- Bedrock content extraction: Anthropic `content[0].text` first, then the
OpenAI `choices[0]` shapes, then the bare `text`/`output` fallbacks, each
tried only while the previous result is falsy. -/
def bedrockExtractContent (rb : Json) : Json :=
  let c1 : Json :=
    match rb.get "content".data with
    | some (.arr (.cons first _)) => first.getD "text".data (.str [])
    | _ => .str []
  let c2 : Json :=
    if c1.truthy then c1
    else
      match rb.get "choices".data with
      | some (.arr (.cons choice _)) =>
          match choice.get "message".data with
          | some msg => msg.getD "content".data (.str [])
          | none =>
              match choice.get "text".data with
              | some _ => choice.getD "text".data (.str [])
              | none => c1
      | _ => c1
  if c2.truthy then c2
  else rb.getD "text".data (rb.getD "output".data (.str []))

/-- The retry condition of the HTTP-error branch:
`'Throttling' in str(e) or '429' in str(e.response.status_code)`. -/
def bedrockHttpThrottled (status : Nat) (estr : String) : Bool :=
  strContains estr "Throttling" || strContains (natStr status) "429"

/-- `error_code` of the HTTP-error branch: the body's `__type` (when the
body parsed to a dict) if truthy, else `HTTP_<status>`. -/
def bedrockHttpErrorCode (status : Nat) (ebody : Option Json) : Json :=
  match ebody with
  | some (.obj kvs) =>
      let t := (Json.obj kvs).getD "__type".data (.str [])
      if t.truthy then t else .str ("HTTP_" ++ natStr status).data
  | _ => .str ("HTTP_" ++ natStr status).data

/-- Error message of the HTTP-error branch:
`error_body.get('message', error_body.get('error', str(e)))`, `str(e)` when
the body is unavailable or not a dict. -/
def bedrockHttpErrMsg (estr : String) (ebody : Option Json) : Json :=
  match ebody with
  | some (.obj kvs) =>
      (Json.obj kvs).getD "message".data ((Json.obj kvs).getD "error".data (.str estr.data))
  | _ => .str estr.data

/-- `BedrockClient.invoke_model`: the retry loop (remaining iterations of
`range(max_retries)`, then the Python `attempt` index). -/
def bedrockLoop (env : Nat → BedrockOutcome) (modelId : String) (maxRetries : Nat) :
    Nat → Nat → InvocationResult × Trace
  | 0, _ =>
      ({ success := false, error := some (.str "Max retries exceeded".data),
         model_id := modelId }, {})
  | remaining + 1, attempt =>
      match env attempt with
      | .ok rb =>
          ({ success := true, content := some (bedrockExtractContent rb),
             model_id := modelId, usage := some (rb.getD "usage".data (.obj .nil)),
             attempt := some (attempt + 1), raw_response := some rb },
           { attempts := 1 })
      | .clientError code estr =>
          if code = "ThrottlingException" ∧ attempt < maxRetries - 1 then
            let r := bedrockLoop env modelId maxRetries remaining (attempt + 1)
            (r.1, { r.2 with
                      sleeps := 2 ^ attempt :: r.2.sleeps,
                      attempts := r.2.attempts + 1 })
          else
            ({ success := false, error := some (.str estr.data),
               error_code := some (.str code.data), model_id := modelId,
               attempt := some (attempt + 1) }, { attempts := 1 })
      | .httpError status estr ebody =>
          if bedrockHttpThrottled status estr ∧ attempt < maxRetries - 1 then
            let r := bedrockLoop env modelId maxRetries remaining (attempt + 1)
            (r.1, { r.2 with
                      sleeps := 2 ^ attempt :: r.2.sleeps,
                      attempts := r.2.attempts + 1 })
          else
            ({ success := false, error := some (bedrockHttpErrMsg estr ebody),
               error_code := some (bedrockHttpErrorCode status ebody),
               model_id := modelId, attempt := some (attempt + 1) },
             { attempts := 1 })
      | .exn estr =>
          ({ success := false, error := some (.str estr.data),
             model_id := modelId, attempt := some (attempt + 1) },
           { attempts := 1 })

/-- `BedrockClient.invoke_model` (its signature has no `thinking`, `tools`
or `tool_executor` parameters — see `bedrockInvokeModelParams`). -/
def bedrockInvokeModel (env : Nat → BedrockOutcome) (modelId : String)
    (maxRetries : Nat) : InvocationResult × Trace :=
  bedrockLoop env modelId maxRetries maxRetries 0

/-! ## Model router (`src/src/model_client.py`)

`ModelClient.invoke_model` always forwards nine keyword arguments to the
chosen backend's `invoke_model`.  Python raises `TypeError` when a keyword
argument does not appear in the callee's parameter list; the dispatch is
therefore modelled in `Except`, with the callees' parameter-name lists
taken from the two signatures. -/

/-- The Bedrock prefixes excluded by `_is_openrouter_model`. -/
def bedrockPrefixes : List String :=
  ["us.", "global.", "anthropic.", "amazon.", "deepseek.", "meta.", "openai."]

/-- `ModelClient._is_openrouter_model`: contains a slash and does not start
with a Bedrock prefix. -/
def isOpenRouterModel (modelId : String) : Bool :=
  if modelId.data.contains '/' then
    !(bedrockPrefixes.any fun p => p.data.isPrefixOf modelId.data)
  else false

/-- Keyword arguments `ModelClient.invoke_model` passes to the backend. -/
def modelClientForwardKwargs : List String :=
  ["model_id", "prompt", "system_instructions", "temperature", "thinking",
   "max_tokens", "max_retries", "tools", "tool_executor"]

/-- Parameter names of `BedrockClient.invoke_model` (lines 42-50). -/
def bedrockInvokeModelParams : List String :=
  ["model_id", "prompt", "system_instructions", "temperature", "max_tokens",
   "max_retries"]

/-- Parameter names of `OpenRouterClient.invoke_model` (lines 239-250). -/
def openrouterInvokeModelParams : List String :=
  ["model_id", "prompt", "system_instructions", "temperature", "thinking",
   "max_tokens", "max_retries", "tools", "tool_executor"]

/-- First forwarded keyword argument the callee does not accept, if any
(Python reports it in the `TypeError`). -/
def unexpectedKwarg (params kwargs : List String) : Option String :=
  kwargs.find? fun k => !(params.contains k)

/-- `ModelClient.invoke_model`: classify the model id, dispatch to the
backend client, and model Python's keyword-argument check of the forwarded
call; a `TypeError` is an `Except.error`. -/
def modelClientInvokeModel (orEnv : Nat → HttpOutcome) (bEnv : Nat → BedrockOutcome)
    (cfg : Config) (modelId prompt : String) (systemInstructions : Option String)
    (maxRetries : Nat) (tools : Option (List Tool))
    (toolExecutor : Option (ToolRegistry × List ExecRecord)) :
    Except String (InvocationResult × Trace) :=
  if isOpenRouterModel modelId then
    match unexpectedKwarg openrouterInvokeModelParams modelClientForwardKwargs with
    | some k =>
        .error ("TypeError: invoke_model() got an unexpected keyword argument " ++
          sglQuote ++ k ++ sglQuote)
    | none =>
        .ok (orInvokeModel orEnv cfg modelId prompt systemInstructions maxRetries
          tools toolExecutor)
  else
    match unexpectedKwarg bedrockInvokeModelParams modelClientForwardKwargs with
    | some k =>
        .error ("TypeError: invoke_model() got an unexpected keyword argument " ++
          sglQuote ++ k ++ sglQuote)
    | none => .ok (bedrockInvokeModel bEnv modelId maxRetries)

/-! ## Statement helpers for the printer/parser round trip -/

/-- The first character of the input, if any, is not a decimal digit (so
greedy number parsing stops exactly there). -/
def headNonDig : List Char → Bool
  | [] => true
  | c :: _ => !isDigCh c

/-- The printed text that follows one array item: either the
comma-newline-indent separator and the remaining items, or the closing
newline, indent and bracket, followed by `rest`. -/
def arrTail (lvl : Nat) : JsonList → List Char → List Char
  | .nil, rest => '\n' :: (spaces (2 * lvl) ++ (']' :: rest))
  | .cons y ys, rest =>
      ',' :: '\n' :: (spaces (2 * (lvl + 1)) ++ (dumpVal (lvl + 1) y ++ arrTail lvl ys rest))

/-- The printed text that follows one object member. -/
def objTail (lvl : Nat) : JsonObj → List Char → List Char
  | .nil, rest => '\n' :: (spaces (2 * lvl) ++ ('}' :: rest))
  | .cons k2 v2 kvs, rest =>
      ',' :: '\n' :: (spaces (2 * (lvl + 1)) ++
        (dumpStr k2 ++ (':' :: ' ' :: (dumpVal (lvl + 1) v2 ++ objTail lvl kvs rest))))

/-! ## Concrete instances and helper definitions used in the theorems -/

/-- Concrete tool whose handler raises, and a registry holding it. -/
def witTool : Tool := { name := "bad", execute := fun _ => .error "kaput" }

def witReg : ToolRegistry := fun n => if n = "bad" then some witTool else none

/-- Concrete tool with a successful handler. -/
def witOkTool : Tool := { name := "t", execute := fun _ => .ok .null }

/-- Concrete mapping value a handler may return. -/
def witDict : JsonObj := .cons ['o', 'k'] (.bool true) (.cons ['n'] (.num 7) .nil)

/-- Concrete tool whose handler returns the mapping `witDict`. -/
def witDictTool : Tool := { name := "d", execute := fun _ => .ok (.obj witDict) }

/-- Registry holding only `witDictTool`. -/
def witDictReg : ToolRegistry := fun n => if n = "d" then some witDictTool else none

/-- The loop state carried out of a `ToolTryOutcome`. -/
def ToolTryOutcome.state : ToolTryOutcome → ToolState
  | .done _ st => st
  | .httpErr _ _ _ st => st
  | .hitExn _ st => st

/-- Transport that returns HTTP 429 on every attempt. -/
def envAll429 (estr : Nat → String) (eb : Nat → Option Json) : Nat → HttpOutcome :=
  fun i => .httpError 429 (estr i) (eb i)

/-- Bedrock transport that raises a throttling `ClientError` on every
attempt. -/
def benvAllThrottle (estr : Nat → String) : Nat → BedrockOutcome :=
  fun i => .clientError "ThrottlingException" (estr i)

/-- Transport that returns HTTP 429 on attempts 1 and 2 and succeeds on
attempt 3. -/
def envC6or (e0 e1 : String) (b0 b1 : Option Json) (body : Json) : Nat → HttpOutcome :=
  fun i => if i = 0 then .httpError 429 e0 b0
    else if i = 1 then .httpError 429 e1 b1 else .ok body

/-- Bedrock transport throttled on attempts 1 and 2, succeeding on 3. -/
def benvC6 (e0 e1 : String) (body : Json) : Nat → BedrockOutcome :=
  fun i => if i = 0 then .clientError "ThrottlingException" e0
    else if i = 1 then .clientError "ThrottlingException" e1 else .ok body

/-! ## Helper lemmas for the executor claims -/

/-- The result dict of `execute_tool_call` does not depend on the existing
execution history (the history only receives an appended record). -/
theorem executeToolCall_fst_hist_free (reg : ToolRegistry) (h h2 : List ExecRecord)
    (tc : ToolCall) :
    (executeToolCall reg h tc).1 = (executeToolCall reg h2 tc).1 := by
  unfold executeToolCall
  rcases tc with ⟨name, tid, inp⟩
  rcases name with _ | tname
  · rfl
  · dsimp only
    split
    · rfl
    · cases hr : reg tname with
      | none => rfl
      | some tool =>
          cases hx : tool.execute (inp.getD (.obj .nil)) <;> simp [hr, hx]

/-- C4 — `ToolExecutor.execute_tool_calls` returns exactly one result per
request, in request order, and each result is a function of that request
(and the registry) alone: position `i` of the output equals
`execute_tool_call` of request `i` against an empty history, so no
request's failure can affect any other position. -/
theorem executeToolCalls_pointwise (reg : ToolRegistry) (hist : List ExecRecord)
    (tcs : List ToolCall) :
    (executeToolCalls reg hist tcs).1 =
      tcs.map (fun tc => (executeToolCall reg [] tc).1) ∧
    (executeToolCalls reg hist tcs).1.length = tcs.length := by
  constructor
  · induction tcs generalizing hist with
    | nil => rfl
    | cons tc rest ih =>
        simp only [executeToolCalls, List.map_cons, List.cons.injEq]
        exact ⟨executeToolCall_fst_hist_free reg hist [] tc, ih _⟩
  · induction tcs generalizing hist with
    | nil => rfl
    | cons tc rest ih => simpa [executeToolCalls] using ih _

/-- C7 — a registered tool whose handler raises is caught: the result has
`status = "error"` and its single content block is exactly
`Error executing tool '<name>': <cause>`; the executor returns normally
(the exception does not propagate, the call still yields a result and a
history extended by one error record). -/
theorem executeToolCall_handler_exception (reg : ToolRegistry)
    (hist : List ExecRecord) (tc : ToolCall) (tname : String) (tool : Tool)
    (cause : String) (hname : tc.name = some tname) (hne : tname ≠ "")
    (hreg : reg tname = some tool)
    (hrun : tool.execute (tc.input.getD (.obj .nil)) = .error cause) :
    executeToolCall reg hist tc =
      ({ toolUseId := idOrUnknown tc.toolUseId, status := "error",
         content := ["Error executing tool " ++ sglQuote ++ tname ++ sglQuote ++
           ": " ++ cause] },
       hist ++ [{ tool_name := tname, tool_use_id := tc.toolUseId,
                  parameters := some (tc.input.getD (.obj .nil)),
                  status := "error",
                  error := some ("Error executing tool " ++ sglQuote ++ tname ++
                    sglQuote ++ ": " ++ cause) }]) := by
  unfold executeToolCall
  rw [hname]
  simp only [hne, if_false, hreg, hrun]

/-- Witness for C7 at a concrete registry, tool and request. -/
theorem executeToolCall_handler_exception_witness :
    executeToolCall witReg [] { name := some "bad", toolUseId := some (.str "id1".data) } =
      ({ toolUseId := .str "id1".data, status := "error",
         content := ["Error executing tool " ++ sglQuote ++ "bad" ++ sglQuote ++
           ": " ++ "kaput"] },
       [{ tool_name := "bad", tool_use_id := some (.str "id1".data),
          parameters := some (.obj .nil), status := "error",
          error := some ("Error executing tool " ++ sglQuote ++ "bad" ++
            sglQuote ++ ": " ++ "kaput") }]) := by
  rw [executeToolCall_handler_exception witReg []
    { name := some "bad", toolUseId := some (.str "id1".data) } "bad" witTool "kaput"
    rfl (by decide) rfl rfl]
  rfl

/-- C10 — a request whose `tool_name` is absent or empty returns the
missing-name error result (call id defaulted through `or "unknown"`) and
leaves the execution history exactly unchanged, while the not-found and
handler-error paths each append exactly one record. -/
theorem executeToolCall_missing_name_frame (reg : ToolRegistry)
    (hist : List ExecRecord) (tc : ToolCall) :
    ((tc.name = none ∨ tc.name = some "") →
      executeToolCall reg hist tc =
        ({ toolUseId := idOrUnknown tc.toolUseId, status := "error",
           content := ["Tool name missing from tool call"] }, hist)) ∧
    (∀ tname, tc.name = some tname → tname ≠ "" → reg tname = none →
      ((executeToolCall reg hist tc).2.length = hist.length + 1 ∧
        (executeToolCall reg hist tc).1.status = "error")) ∧
    (∀ tname tool cause, tc.name = some tname → tname ≠ "" →
      reg tname = some tool →
      tool.execute (tc.input.getD (.obj .nil)) = .error cause →
      ((executeToolCall reg hist tc).2.length = hist.length + 1 ∧
        (executeToolCall reg hist tc).1.status = "error")) := by
  refine ⟨?_, ?_, ?_⟩
  · rintro (hname | hname) <;>
      · unfold executeToolCall
        simp [hname]
  · intro tname hname hne hreg
    unfold executeToolCall
    rw [hname]
    simp [hne, hreg]
  · intro tname tool cause hname hne hreg hrun
    unfold executeToolCall
    rw [hname]
    simp [hne, hreg, hrun]

/-- Witness for C10: the missing-name call leaves a nonempty history
untouched, while not-found and handler-error calls append one record. -/
theorem executeToolCall_missing_name_frame_witness :
    (executeToolCall witReg [{ tool_name := "old", status := "success" }]
        { name := none, toolUseId := none } =
      ({ toolUseId := .str "unknown".data, status := "error",
         content := ["Tool name missing from tool call"] },
       [{ tool_name := "old", status := "success" }])) ∧
    (executeToolCall witReg [] { name := some "nope" }).2.length = 1 ∧
    (executeToolCall witReg [] { name := some "bad" }).2.length = 1 := by
  refine ⟨?_, ?_, ?_⟩
  · have h := (executeToolCall_missing_name_frame witReg
      [{ tool_name := "old", status := "success" }]
      { name := none, toolUseId := none }).1 (Or.inl rfl)
    rw [h]
    rfl
  · exact ((executeToolCall_missing_name_frame witReg []
      { name := some "nope" }).2.1 "nope" rfl (by decide) rfl).1
  · exact ((executeToolCall_missing_name_frame witReg []
      { name := some "bad" }).2.2 "bad" witTool "kaput" rfl (by decide) rfl rfl).1

/-- C1 — refuted by the code: `ModelClient.invoke_model` always forwards
the keyword arguments `thinking`, `tools` and `tool_executor`, but
`BedrockClient.invoke_model` accepts none of them, so every invocation
routed to Bedrock (here a model id with no slash, classified Bedrock)
raises `TypeError` instead of returning an InvocationResult — with or
without tools supplied. -/
theorem modelClient_bedrock_raises_typeerror :
    isOpenRouterModel "anthropic.claude-3-sonnet-20240229-v1:0" = false ∧
    modelClientInvokeModel (fun _ => .exn "") (fun _ => .exn "") {}
        "anthropic.claude-3-sonnet-20240229-v1:0" "p" none 3
        (some [witOkTool]) (some (witReg, [])) =
      .error ("TypeError: invoke_model() got an unexpected keyword argument " ++
        sglQuote ++ "thinking" ++ sglQuote) ∧
    modelClientInvokeModel (fun _ => .exn "") (fun _ => .exn "") {}
        "anthropic.claude-3-sonnet-20240229-v1:0" "p" none 3 none none =
      .error ("TypeError: invoke_model() got an unexpected keyword argument " ++
        sglQuote ++ "thinking" ++ sglQuote) := by
  refine ⟨rfl, rfl, rfl⟩

/-! ## Retry/backoff claims -/

/-- C2 counterexample — with a transport returning HTTP 429 on all three
attempts (`max_retries = 3`), the returned result does NOT say
`Max retries exceeded` and DOES carry an `error_code`: the final throttled
attempt returns the HTTP error itself (`error = str(e)`,
`error_code = HTTP_429`), because the loop's else-branch fires on the last
attempt and the fall-through return is unreachable.  Three attempts are
made, as the claim says. -/
theorem retry_exhaustion_counterexample :
    (orInvokePlain (envAll429 (fun _ => "429 Client Error") (fun _ => none)) "m" 3).1.error ≠
      some (.str "Max retries exceeded".data) ∧
    (orInvokePlain (envAll429 (fun _ => "429 Client Error") (fun _ => none)) "m" 3).1.error_code ≠
      none ∧
    (orInvokePlain (envAll429 (fun _ => "429 Client Error") (fun _ => none)) "m" 3).2.attempts = 3 := by
  refine ⟨?_, ?_, rfl⟩
  · show some (Json.str "429 Client Error".data) ≠ some (.str "Max retries exceeded".data)
    intro h
    injection h with h1
    injection h1 with h2
    exact absurd h2 (by decide)
  · show some (Json.str "HTTP_429".data) ≠ none
    intro h
    exact Option.noConfusion h
/-- C2 amended — exhausting `max_retries = 3` on a backend that always
throttles yields `success = false` with exactly 3 attempts and two backoff
sleeps, but the result reports the final throttling error itself:
`attempt = 3`, `error_code = HTTP_429` (OpenRouter) respectively
`ThrottlingException` (Bedrock), and `error` is the string form of the last
error; the literal `Max retries exceeded` dict (which carries no
`error_code` and no `attempt`) is returned only when the loop runs zero
attempts (`max_retries = 0`). -/
theorem retry_exhaustion_reports_last_throttle (mid : String) (estr : Nat → String)
    (eb : Nat → Option Json) (bestr : Nat → String) :
    ((orInvokePlain (envAll429 estr eb) mid 3).1.success = false ∧
     (orInvokePlain (envAll429 estr eb) mid 3).2.attempts = 3 ∧
     (orInvokePlain (envAll429 estr eb) mid 3).1.attempt = some 3 ∧
     (orInvokePlain (envAll429 estr eb) mid 3).1.error_code = some (.str "HTTP_429".data) ∧
     (orInvokePlain (envAll429 estr eb) mid 3).1.error = some (orPlainErrMsg (estr 2) (eb 2)) ∧
     (orInvokePlain (envAll429 estr eb) mid 3).2.sleeps = [1, 2]) ∧
    ((bedrockInvokeModel (benvAllThrottle bestr) mid 3).1.success = false ∧
     (bedrockInvokeModel (benvAllThrottle bestr) mid 3).2.attempts = 3 ∧
     (bedrockInvokeModel (benvAllThrottle bestr) mid 3).1.attempt = some 3 ∧
     (bedrockInvokeModel (benvAllThrottle bestr) mid 3).1.error_code =
       some (.str "ThrottlingException".data) ∧
     (bedrockInvokeModel (benvAllThrottle bestr) mid 3).1.error = some (.str (bestr 2).data) ∧
     (bedrockInvokeModel (benvAllThrottle bestr) mid 3).2.sleeps = [1, 2]) ∧
    (orInvokePlain (envAll429 estr eb) mid 0).1.error = some (.str "Max retries exceeded".data) := by
  refine ⟨?_, ?_, rfl⟩
  · simp [orInvokePlain, orPlainLoop, envAll429]
    rfl
  · simp [bedrockInvokeModel, bedrockLoop, benvAllThrottle]

/-- C6 — a transport throttled (HTTP 429 / ThrottlingException) on attempts
1 and 2 that succeeds on attempt 3, under `max_retries = 3`, yields
`success = true` and `attempt = 3`, with exactly the two backoff sleeps
`2^0` and `2^1` time units (exponential in the 0-based attempt index,
ratio 2) performed between attempts and none after the final attempt. -/
theorem throttle_then_success_backoff (mid e0 e1 : String) (b0 b1 : Option Json)
    (body bbody : Json) (be0 be1 : String) :
    ((orInvokePlain (envC6or e0 e1 b0 b1 body) mid 3).1.success = true ∧
     (orInvokePlain (envC6or e0 e1 b0 b1 body) mid 3).1.attempt = some 3 ∧
     (orInvokePlain (envC6or e0 e1 b0 b1 body) mid 3).2.sleeps = [2 ^ 0, 2 ^ 1] ∧
     (orInvokePlain (envC6or e0 e1 b0 b1 body) mid 3).2.attempts = 3) ∧
    ((bedrockInvokeModel (benvC6 be0 be1 bbody) mid 3).1.success = true ∧
     (bedrockInvokeModel (benvC6 be0 be1 bbody) mid 3).1.attempt = some 3 ∧
     (bedrockInvokeModel (benvC6 be0 be1 bbody) mid 3).2.sleeps = [2 ^ 0, 2 ^ 1] ∧
     (bedrockInvokeModel (benvC6 be0 be1 bbody) mid 3).2.attempts = 3) := by
  constructor
  · simp [orInvokePlain, orPlainLoop, envC6or]
  · simp [bedrockInvokeModel, bedrockLoop, benvC6]

/-- C5 counterexample — an unexpected (non-HTTP) exception on attempt 1
terminates immediately with `success = false` and the attempt number, but
the generic `except Exception` branch populates NO `error_code`, contrary
to the claim that every non-retryable failure populates one. -/
theorem nonretryable_exception_no_error_code :
    (orInvokePlain (fun _ => .exn "boom") "m" 3).1.success = false ∧
    (orInvokePlain (fun _ => .exn "boom") "m" 3).1.attempt = some 1 ∧
    (orInvokePlain (fun _ => .exn "boom") "m" 3).1.error = some (.str "boom".data) ∧
    (orInvokePlain (fun _ => .exn "boom") "m" 3).1.error_code = none ∧
    (bedrockInvokeModel (fun _ => .exn "boom") "m" 3).1.error_code = none ∧
    (bedrockInvokeModel (fun _ => .exn "boom") "m" 3).1.attempt = some 1 := by
  exact ⟨rfl, rfl, rfl, rfl, rfl, rfl⟩

/-- One plain-loop step on a non-retryable HTTP error. -/
theorem orPlainLoop_step_http_stop (env : Nat → HttpOutcome) (mid : String)
    (maxRetries r a status : Nat) (es : String) (eb : Option Json)
    (henv : env a = .httpError status es eb)
    (hstop : ¬(status = 429 ∧ a < maxRetries - 1)) :
    orPlainLoop env mid maxRetries (r + 1) a =
      ({ success := false, error := some (orPlainErrMsg es eb),
         error_code := some (.str ("HTTP_" ++ natStr status).data),
         model_id := mid, attempt := some (a + 1) }, { attempts := 1 }) := by
  simp [orPlainLoop, henv, hstop]

/-- One plain-loop step on an unexpected exception. -/
theorem orPlainLoop_step_exn (env : Nat → HttpOutcome) (mid : String)
    (maxRetries r a : Nat) (es : String) (henv : env a = .exn es) :
    orPlainLoop env mid maxRetries (r + 1) a =
      ({ success := false, error := some (.str es.data), model_id := mid,
         attempt := some (a + 1) }, { attempts := 1 }) := by
  simp [orPlainLoop, henv]

/-- A prefix of `k` throttled attempts only shifts the plain loop: the
result dict is the one produced from attempt `a + k` on. -/
theorem orPlainLoop_throttle_shift_fst (env : Nat → HttpOutcome) (mid : String)
    (maxRetries : Nat) :
    ∀ (k r a : Nat), r + a = maxRetries → a + k < maxRetries →
      (∀ i, i < k → ∃ es eb, env (a + i) = .httpError 429 es eb) →
      (orPlainLoop env mid maxRetries r a).1 =
        (orPlainLoop env mid maxRetries (r - k) (a + k)).1 := by
  intro k
  induction k with
  | zero => intro r a _ _ _; simp
  | succ k ih =>
      intro r a h1 h2 h3
      obtain ⟨es, eb, henv⟩ := h3 0 (Nat.succ_pos k)
      rw [Nat.add_zero] at henv
      obtain ⟨r2, rfl⟩ : ∃ r2, r = r2 + 1 := ⟨r - 1, by omega⟩
      have hcond : ((429 : Nat) = 429 ∧ a < maxRetries - 1) := ⟨rfl, by omega⟩
      have step : (orPlainLoop env mid maxRetries (r2 + 1) a).1 =
          (orPlainLoop env mid maxRetries r2 (a + 1)).1 := by
        simp [orPlainLoop, henv, hcond]
      rw [step, ih r2 (a + 1) (by omega) (by omega)
        (fun i hi => by
          have h := h3 (i + 1) (by omega)
          rw [show a + (i + 1) = a + 1 + i by omega] at h
          exact h)]
      have e1 : r2 + 1 - (k + 1) = r2 - k := by omega
      have e2 : a + (k + 1) = a + 1 + k := by omega
      rw [e1, e2]

/-- The same prefix contributes exactly `k` to the attempt count. -/
theorem orPlainLoop_throttle_shift_attempts (env : Nat → HttpOutcome) (mid : String)
    (maxRetries : Nat) :
    ∀ (k r a : Nat), r + a = maxRetries → a + k < maxRetries →
      (∀ i, i < k → ∃ es eb, env (a + i) = .httpError 429 es eb) →
      (orPlainLoop env mid maxRetries r a).2.attempts =
        k + (orPlainLoop env mid maxRetries (r - k) (a + k)).2.attempts := by
  intro k
  induction k with
  | zero => intro r a _ _ _; simp
  | succ k ih =>
      intro r a h1 h2 h3
      obtain ⟨es, eb, henv⟩ := h3 0 (Nat.succ_pos k)
      rw [Nat.add_zero] at henv
      obtain ⟨r2, rfl⟩ : ∃ r2, r = r2 + 1 := ⟨r - 1, by omega⟩
      have hcond : ((429 : Nat) = 429 ∧ a < maxRetries - 1) := ⟨rfl, by omega⟩
      have step : (orPlainLoop env mid maxRetries (r2 + 1) a).2.attempts =
          (orPlainLoop env mid maxRetries r2 (a + 1)).2.attempts + 1 := by
        simp [orPlainLoop, henv, hcond]
      rw [step, ih r2 (a + 1) (by omega) (by omega)
        (fun i hi => by
          have h := h3 (i + 1) (by omega)
          rw [show a + (i + 1) = a + 1 + i by omega] at h
          exact h)]
      have e1 : r2 + 1 - (k + 1) = r2 - k := by omega
      have e2 : a + (k + 1) = a + 1 + k := by omega
      rw [e1, e2]
      omega

/-- One Bedrock step on a non-retryable `ClientError`. -/
theorem bedrockLoop_step_client_stop (env : Nat → BedrockOutcome) (mid : String)
    (maxRetries r a : Nat) (code es : String)
    (henv : env a = .clientError code es)
    (hstop : ¬(code = "ThrottlingException" ∧ a < maxRetries - 1)) :
    bedrockLoop env mid maxRetries (r + 1) a =
      ({ success := false, error := some (.str es.data),
         error_code := some (.str code.data), model_id := mid,
         attempt := some (a + 1) }, { attempts := 1 }) := by
  simp [bedrockLoop, henv, hstop]

/-- One Bedrock step on an unexpected exception. -/
theorem bedrockLoop_step_exn (env : Nat → BedrockOutcome) (mid : String)
    (maxRetries r a : Nat) (es : String) (henv : env a = .exn es) :
    bedrockLoop env mid maxRetries (r + 1) a =
      ({ success := false, error := some (.str es.data), model_id := mid,
         attempt := some (a + 1) }, { attempts := 1 }) := by
  simp [bedrockLoop, henv]

/-- Throttled-prefix shift for the Bedrock loop (result dict). -/
theorem bedrockLoop_throttle_shift_fst (env : Nat → BedrockOutcome) (mid : String)
    (maxRetries : Nat) :
    ∀ (k r a : Nat), r + a = maxRetries → a + k < maxRetries →
      (∀ i, i < k → ∃ es, env (a + i) = .clientError "ThrottlingException" es) →
      (bedrockLoop env mid maxRetries r a).1 =
        (bedrockLoop env mid maxRetries (r - k) (a + k)).1 := by
  intro k
  induction k with
  | zero => intro r a _ _ _; simp
  | succ k ih =>
      intro r a h1 h2 h3
      obtain ⟨es, henv⟩ := h3 0 (Nat.succ_pos k)
      rw [Nat.add_zero] at henv
      obtain ⟨r2, rfl⟩ : ∃ r2, r = r2 + 1 := ⟨r - 1, by omega⟩
      have hcond : (("ThrottlingException" : String) = "ThrottlingException" ∧
          a < maxRetries - 1) := ⟨rfl, by omega⟩
      have step : (bedrockLoop env mid maxRetries (r2 + 1) a).1 =
          (bedrockLoop env mid maxRetries r2 (a + 1)).1 := by
        simp [bedrockLoop, henv, hcond]
      rw [step, ih r2 (a + 1) (by omega) (by omega)
        (fun i hi => by
          have h := h3 (i + 1) (by omega)
          rw [show a + (i + 1) = a + 1 + i by omega] at h
          exact h)]
      have e1 : r2 + 1 - (k + 1) = r2 - k := by omega
      have e2 : a + (k + 1) = a + 1 + k := by omega
      rw [e1, e2]

/-- Throttled-prefix shift for the Bedrock loop (attempt count). -/
theorem bedrockLoop_throttle_shift_attempts (env : Nat → BedrockOutcome) (mid : String)
    (maxRetries : Nat) :
    ∀ (k r a : Nat), r + a = maxRetries → a + k < maxRetries →
      (∀ i, i < k → ∃ es, env (a + i) = .clientError "ThrottlingException" es) →
      (bedrockLoop env mid maxRetries r a).2.attempts =
        k + (bedrockLoop env mid maxRetries (r - k) (a + k)).2.attempts := by
  intro k
  induction k with
  | zero => intro r a _ _ _; simp
  | succ k ih =>
      intro r a h1 h2 h3
      obtain ⟨es, henv⟩ := h3 0 (Nat.succ_pos k)
      rw [Nat.add_zero] at henv
      obtain ⟨r2, rfl⟩ : ∃ r2, r = r2 + 1 := ⟨r - 1, by omega⟩
      have hcond : (("ThrottlingException" : String) = "ThrottlingException" ∧
          a < maxRetries - 1) := ⟨rfl, by omega⟩
      have step : (bedrockLoop env mid maxRetries (r2 + 1) a).2.attempts =
          (bedrockLoop env mid maxRetries r2 (a + 1)).2.attempts + 1 := by
        simp [bedrockLoop, henv, hcond]
      rw [step, ih r2 (a + 1) (by omega) (by omega)
        (fun i hi => by
          have h := h3 (i + 1) (by omega)
          rw [show a + (i + 1) = a + 1 + i by omega] at h
          exact h)]
      have e1 : r2 + 1 - (k + 1) = r2 - k := by omega
      have e2 : a + (k + 1) = a + 1 + k := by omega
      rw [e1, e2]
      omega

/-- C5 amended — after any prefix of throttled attempts, the first
non-retryable failure terminates the invocation immediately (the attempt
count stops at `k + 1`) with `success = false`, `error` and the 1-based
attempt number populated; a non-throttling HTTP error (OpenRouter) or a
non-throttling `ClientError` (Bedrock) additionally populates the
backend-specific `error_code`, but an unexpected exception populates NO
`error_code` on either backend. -/
theorem nonretryable_failure_immediate (env : Nat → HttpOutcome)
    (benv : Nat → BedrockOutcome) (mid : String) (maxRetries k : Nat)
    (hk : k < maxRetries)
    (hor : ∀ i, i < k → ∃ es eb, env i = .httpError 429 es eb)
    (hbed : ∀ i, i < k → ∃ es, benv i = .clientError "ThrottlingException" es) :
    (∀ status es eb, env k = .httpError status es eb → status ≠ 429 →
      (orInvokePlain env mid maxRetries).1.success = false ∧
      (orInvokePlain env mid maxRetries).1.error = some (orPlainErrMsg es eb) ∧
      (orInvokePlain env mid maxRetries).1.error_code =
        some (.str ("HTTP_" ++ natStr status).data) ∧
      (orInvokePlain env mid maxRetries).1.attempt = some (k + 1) ∧
      (orInvokePlain env mid maxRetries).2.attempts = k + 1) ∧
    (∀ es, env k = .exn es →
      (orInvokePlain env mid maxRetries).1.success = false ∧
      (orInvokePlain env mid maxRetries).1.error = some (.str es.data) ∧
      (orInvokePlain env mid maxRetries).1.error_code = none ∧
      (orInvokePlain env mid maxRetries).1.attempt = some (k + 1) ∧
      (orInvokePlain env mid maxRetries).2.attempts = k + 1) ∧
    (∀ code es, benv k = .clientError code es → code ≠ "ThrottlingException" →
      (bedrockInvokeModel benv mid maxRetries).1.success = false ∧
      (bedrockInvokeModel benv mid maxRetries).1.error = some (.str es.data) ∧
      (bedrockInvokeModel benv mid maxRetries).1.error_code = some (.str code.data) ∧
      (bedrockInvokeModel benv mid maxRetries).1.attempt = some (k + 1) ∧
      (bedrockInvokeModel benv mid maxRetries).2.attempts = k + 1) ∧
    (∀ es, benv k = .exn es →
      (bedrockInvokeModel benv mid maxRetries).1.success = false ∧
      (bedrockInvokeModel benv mid maxRetries).1.error = some (.str es.data) ∧
      (bedrockInvokeModel benv mid maxRetries).1.error_code = none ∧
      (bedrockInvokeModel benv mid maxRetries).1.attempt = some (k + 1) ∧
      (bedrockInvokeModel benv mid maxRetries).2.attempts = k + 1) := by
  obtain ⟨r2, hr2⟩ : ∃ r2, maxRetries - k = r2 + 1 := ⟨maxRetries - k - 1, by omega⟩
  have hfst := orPlainLoop_throttle_shift_fst env mid maxRetries k maxRetries 0
    (by omega) (by omega) (fun i hi => by simpa using hor i hi)
  have hatt := orPlainLoop_throttle_shift_attempts env mid maxRetries k maxRetries 0
    (by omega) (by omega) (fun i hi => by simpa using hor i hi)
  have bfst := bedrockLoop_throttle_shift_fst benv mid maxRetries k maxRetries 0
    (by omega) (by omega) (fun i hi => by simpa using hbed i hi)
  have batt := bedrockLoop_throttle_shift_attempts benv mid maxRetries k maxRetries 0
    (by omega) (by omega) (fun i hi => by simpa using hbed i hi)
  rw [Nat.zero_add] at hfst hatt bfst batt
  refine ⟨?_, ?_, ?_, ?_⟩
  · intro status es eb henv hne
    have hstep := orPlainLoop_step_http_stop env mid maxRetries r2 k status es eb
      henv (by intro hc; exact hne hc.1)
    rw [hr2] at hfst hatt
    unfold orInvokePlain
    rw [hfst, hatt, hstep]
    exact ⟨rfl, rfl, rfl, rfl, rfl⟩
  · intro es henv
    have hstep := orPlainLoop_step_exn env mid maxRetries r2 k es henv
    rw [hr2] at hfst hatt
    unfold orInvokePlain
    rw [hfst, hatt, hstep]
    exact ⟨rfl, rfl, rfl, rfl, rfl⟩
  · intro code es henv hne
    have hstep := bedrockLoop_step_client_stop benv mid maxRetries r2 k code es
      henv (by intro hc; exact hne hc.1)
    rw [hr2] at bfst batt
    unfold bedrockInvokeModel
    rw [bfst, batt, hstep]
    exact ⟨rfl, rfl, rfl, rfl, rfl⟩
  · intro es henv
    have hstep := bedrockLoop_step_exn benv mid maxRetries r2 k es henv
    rw [hr2] at bfst batt
    unfold bedrockInvokeModel
    rw [bfst, batt, hstep]
    exact ⟨rfl, rfl, rfl, rfl, rfl⟩

/-- Witness for C5 (amended): one throttled attempt, then a 500 on the
OpenRouter side and an unexpected exception on the Bedrock side, with
`max_retries = 3`. -/
theorem nonretryable_failure_immediate_witness :
    (orInvokePlain (fun i => if i = 0 then .httpError 429 "t" none else .httpError 500 "ise" none)
        "m" 3).1.error_code = some (.str ("HTTP_" ++ natStr 500).data) ∧
    (orInvokePlain (fun i => if i = 0 then .httpError 429 "t" none else .httpError 500 "ise" none)
        "m" 3).1.attempt = some 2 ∧
    (bedrockInvokeModel (fun i => if i = 0
        then .clientError "ThrottlingException" "t" else .exn "boom") "m" 3).1.error_code = none ∧
    (bedrockInvokeModel (fun i => if i = 0
        then .clientError "ThrottlingException" "t" else .exn "boom") "m" 3).2.attempts = 2 := by
  have h := nonretryable_failure_immediate
    (fun i => if i = 0 then .httpError 429 "t" none else .httpError 500 "ise" none)
    (fun i => if i = 0 then .clientError "ThrottlingException" "t" else .exn "boom")
    "m" 3 1 (by decide)
    (fun i hi => ⟨"t", none, by interval_cases i; rfl⟩)
    (fun i hi => ⟨"t", by interval_cases i; rfl⟩)
  obtain ⟨hA, _, _, hD⟩ := h
  have hA2 := hA 500 "ise" none rfl (by decide)
  have hD2 := hD "boom" rfl
  exact ⟨hA2.2.2.1, hA2.2.2.2.1, hD2.2.2.1, hD2.2.2.2.2⟩

/-! ## Attempt-range invariant (C9) -/

/-- Every result of the plain loop entered with at least one remaining
attempt carries an attempt number in `(a, maxRetries]`. -/
theorem orPlainLoop_attempt_bound (env : Nat → HttpOutcome) (mid : String)
    (maxRetries : Nat) :
    ∀ r a, 1 ≤ r → r + a = maxRetries →
      ∃ n, (orPlainLoop env mid maxRetries r a).1.attempt = some n ∧
        a + 1 ≤ n ∧ n ≤ maxRetries := by
  intro r
  induction r with
  | zero => intro a h1 _; omega
  | succ r ih =>
      intro a _ h2
      cases henv : env a with
      | ok body =>
          exact ⟨a + 1, by simp [orPlainLoop, henv], by omega, by omega⟩
      | httpError status es eb =>
          by_cases hc : status = 429 ∧ a < maxRetries - 1
          · obtain ⟨n, hn, h3, h4⟩ := ih (a + 1) (by omega) (by omega)
            exact ⟨n, by simp [orPlainLoop, henv, hc, hn], by omega, h4⟩
          · exact ⟨a + 1, by simp [orPlainLoop, henv, hc], by omega, by omega⟩
      | exn es =>
          exact ⟨a + 1, by simp [orPlainLoop, henv], by omega, by omega⟩

/-- Same bound for the Bedrock loop. -/
theorem bedrockLoop_attempt_bound (env : Nat → BedrockOutcome) (mid : String)
    (maxRetries : Nat) :
    ∀ r a, 1 ≤ r → r + a = maxRetries →
      ∃ n, (bedrockLoop env mid maxRetries r a).1.attempt = some n ∧
        a + 1 ≤ n ∧ n ≤ maxRetries := by
  intro r
  induction r with
  | zero => intro a h1 _; omega
  | succ r ih =>
      intro a _ h2
      cases henv : env a with
      | ok body =>
          exact ⟨a + 1, by simp [bedrockLoop, henv], by omega, by omega⟩
      | clientError code es =>
          by_cases hc : code = "ThrottlingException" ∧ a < maxRetries - 1
          · obtain ⟨n, hn, h3, h4⟩ := ih (a + 1) (by omega) (by omega)
            exact ⟨n, by simp [bedrockLoop, henv, hc, hn], by omega, h4⟩
          · exact ⟨a + 1, by simp [bedrockLoop, henv, hc], by omega, by omega⟩
      | httpError status es eb =>
          by_cases hc : bedrockHttpThrottled status es = true ∧ a < maxRetries - 1
          · obtain ⟨n, hn, h3, h4⟩ := ih (a + 1) (by omega) (by omega)
            exact ⟨n, by simp [bedrockLoop, henv, hc, hn], by omega, h4⟩
          · exact ⟨a + 1, by simp [bedrockLoop, henv, hc], by omega, by omega⟩
      | exn es =>
          exact ⟨a + 1, by simp [bedrockLoop, henv], by omega, by omega⟩

/-- Same bound for the tool-aware retry loop, for any loop state. -/
theorem orToolsRetry_attempt_bound (env : Nat → HttpOutcome) (reg : ToolRegistry)
    (mid : String) (maxRetries : Nat) :
    ∀ r a st, 1 ≤ r → r + a = maxRetries →
      ∃ n, (orToolsRetry env reg mid maxRetries r a st).1.attempt = some n ∧
        a + 1 ≤ n ∧ n ≤ maxRetries := by
  intro r
  induction r with
  | zero => intro a st h1 _; omega
  | succ r ih =>
      intro a st _ h2
      cases hw : orToolsWhile env reg maxToolIterations st with
      | done bodyOpt st1 =>
          exact ⟨a + 1, by simp [orToolsRetry, hw], by omega, by omega⟩
      | httpErr status es eb st1 =>
          by_cases hc : status = 429 ∧ a < maxRetries - 1
          · obtain ⟨n, hn, h3, h4⟩ := ih (a + 1) st1 (by omega) (by omega)
            exact ⟨n, by simp [orToolsRetry, hw, hc, hn], by omega, h4⟩
          · exact ⟨a + 1, by simp [orToolsRetry, hw, hc], by omega, by omega⟩
      | hitExn es st1 =>
          exact ⟨a + 1, by simp [orToolsRetry, hw], by omega, by omega⟩

/-- C9 — every invocation (OpenRouter plain or tool-aware for any
combination of `tools`/`tool_executor` arguments, and Bedrock; success or
failure) with `max_retries ≥ 1` returns a result whose `attempt` field is
present and lies in `[1, max_retries]`. -/
theorem invocation_attempt_in_range (env : Nat → HttpOutcome)
    (benv : Nat → BedrockOutcome) (cfg : Config) (mid prompt : String)
    (sysIns : Option String) (maxRetries : Nat) (tools : Option (List Tool))
    (texec : Option (ToolRegistry × List ExecRecord)) (h : 1 ≤ maxRetries) :
    (∃ n, (orInvokeModel env cfg mid prompt sysIns maxRetries tools texec).1.attempt =
        some n ∧ 1 ≤ n ∧ n ≤ maxRetries) ∧
    (∃ n, (bedrockInvokeModel benv mid maxRetries).1.attempt = some n ∧
        1 ≤ n ∧ n ≤ maxRetries) := by
  constructor
  · have hplain : ∃ n, (orInvokePlain env mid maxRetries).1.attempt = some n ∧
        1 ≤ n ∧ n ≤ maxRetries := by
      obtain ⟨n, hn, h3, h4⟩ :=
        orPlainLoop_attempt_bound env mid maxRetries maxRetries 0 h (by omega)
      exact ⟨n, hn, by omega, h4⟩
    rcases tools with _ | tlist
    · simpa [orInvokeModel] using hplain
    · rcases tlist with _ | ⟨t, ts⟩
      · simpa [orInvokeModel] using hplain
      · rcases texec with _ | te
        · simpa [orInvokeModel] using hplain
        · obtain ⟨n, hn, h3, h4⟩ := orToolsRetry_attempt_bound env te.1 mid maxRetries
            maxRetries 0 { messages := buildMessages (sysIns.getD cfg.defaultSystemInstructions) prompt,
                           history := te.2 } h (by omega)
          exact ⟨n, by simpa [orInvokeModel, orInvokeWithTools] using hn, by omega, h4⟩
  · obtain ⟨n, hn, h3, h4⟩ :=
      bedrockLoop_attempt_bound benv mid maxRetries maxRetries 0 h (by omega)
    exact ⟨n, hn, by omega, h4⟩

/-- Witness for C9 at `max_retries = 3` with concrete transports and a
tool-aware argument combination. -/
theorem invocation_attempt_in_range_witness :
    (∃ n, (orInvokeModel (fun _ => .exn "e") {} "m" "p" none 3
        (some [witOkTool]) (some (witReg, []))).1.attempt = some n ∧ 1 ≤ n ∧ n ≤ 3) ∧
    (∃ n, (bedrockInvokeModel (fun _ => .exn "e") "m" 3).1.attempt = some n ∧
        1 ≤ n ∧ n ≤ 3) :=
  invocation_attempt_in_range (fun _ => .exn "e") (fun _ => .exn "e") {} "m" "p"
    none 3 (some [witOkTool]) (some (witReg, [])) (by decide)

/-! ## Tool-loop boundedness (C3) -/

/-- The quantity `execCalls + (ceiling - toolIterations)` never increases
across the tool-use `while` loop: each iteration that executes tools adds
one executor call and one iteration (allowed only below the ceiling). -/
theorem orToolsWhile_potential (env : Nat → HttpOutcome) (reg : ToolRegistry) :
    ∀ fuel st,
      (orToolsWhile env reg fuel st).state.execCalls +
        (maxToolIterations - (orToolsWhile env reg fuel st).state.toolIterations) ≤
      st.execCalls + (maxToolIterations - st.toolIterations) := by
  intro fuel
  induction fuel with
  | zero => intro st; simp [orToolsWhile, ToolTryOutcome.state]
  | succ fuel ih =>
      intro st
      by_cases hit : st.toolIterations < maxToolIterations
      · cases henv : env st.reqIdx with
        | ok body =>
            cases htc : extractToolCalls body with
            | nil => simp [orToolsWhile, hit, henv, htc, ToolTryOutcome.state]
            | cons tc tcs =>
                simp only [orToolsWhile, hit, if_true, henv, htc]
                refine le_trans (ih _) ?_
                simp
                omega
        | httpError status es eb =>
            simp [orToolsWhile, hit, henv, ToolTryOutcome.state]
        | exn es =>
            simp [orToolsWhile, hit, henv, ToolTryOutcome.state]
      · simp [orToolsWhile, hit, ToolTryOutcome.state]

/-- The executor-call counter reported by the tool-aware retry loop is
bounded by the entry state's potential. -/
theorem orToolsRetry_execCalls_bound (env : Nat → HttpOutcome) (reg : ToolRegistry)
    (mid : String) (maxRetries : Nat) :
    ∀ r a st, (orToolsRetry env reg mid maxRetries r a st).2.execCalls ≤
      st.execCalls + (maxToolIterations - st.toolIterations) := by
  intro r
  induction r with
  | zero => intro a st; simp [orToolsRetry]
  | succ r ih =>
      intro a st
      have hp := orToolsWhile_potential env reg maxToolIterations st
      cases hw : orToolsWhile env reg maxToolIterations st with
      | done b st1 =>
          rw [hw] at hp
          simp only [ToolTryOutcome.state] at hp
          simp [orToolsRetry, hw]
          omega
      | httpErr status es eb st1 =>
          rw [hw] at hp
          simp only [ToolTryOutcome.state] at hp
          by_cases hc : status = 429 ∧ a < maxRetries - 1
          · simp only [orToolsRetry, hw, hc, if_true]
            exact le_trans (ih (a + 1) st1) (by omega)
          · simp [orToolsRetry, hw, hc]
            omega
      | hitExn es st1 =>
          rw [hw] at hp
          simp only [ToolTryOutcome.state] at hp
          simp [orToolsRetry, hw]
          omega

/-- C3 — for every transport behavior (in particular one whose response
carries tool calls on every turn) the tool-aware invocation performs at
most 10 executor invocations: the loop's ceiling is the constant 10 and
the iteration count starts at 0 in the entry state, so the loop cannot run
unboundedly. -/
theorem toolLoop_executions_bounded (env : Nat → HttpOutcome) (reg : ToolRegistry)
    (hist0 : List ExecRecord) (mid prompt sysIns : String) (maxRetries : Nat) :
    (orInvokeWithTools env reg hist0 mid prompt sysIns maxRetries).2.execCalls ≤ 10 ∧
    maxToolIterations = 10 := by
  constructor
  · have h := orToolsRetry_execCalls_bound env reg mid maxRetries maxRetries 0
      { messages := buildMessages sysIns prompt, history := hist0 }
    simpa [orInvokeWithTools, maxToolIterations] using h
  · rfl

/-! ## Printer/parser round trip (C8): digits and numbers -/

/-- Character value of a decimal digit character. -/
theorem digitCh_toNat (d : Nat) (h : d < 10) : (digitCh d).toNat = 48 + d := by
  interval_cases d <;> rfl

/-- Decimal digit characters pass the digit test. -/
theorem isDigCh_digitCh (d : Nat) (h : d < 10) : isDigCh (digitCh d) = true := by
  interval_cases d <;> rfl

/-- `digitsToNat` over an appended list folds left. -/
theorem digitsToNat_append (acc : Nat) (xs ys : List Char) :
    digitsToNat acc (xs ++ ys) = digitsToNat (digitsToNat acc xs) ys := by
  induction xs generalizing acc with
  | nil => rfl
  | cons c cs ih =>
      show digitsToNat (acc * 10 + (c.toNat - 48)) (cs ++ ys) = _
      rw [ih]
      rfl

/-- Every character printed by `natReprAux` is a decimal digit. -/
theorem natReprAux_all_digits : ∀ f n : Nat, ∀ c ∈ natReprAux f n, isDigCh c = true := by
  intro f
  induction f with
  | zero =>
      intro n c hc
      cases n <;> simp [natReprAux] at hc
  | succ f ih =>
      intro n c hc
      cases n with
      | zero => simp [natReprAux] at hc
      | succ n =>
          simp only [natReprAux, List.mem_append, List.mem_singleton] at hc
          rcases hc with h | h
          · exact ih _ c h
          · rw [h]; exact isDigCh_digitCh _ (Nat.mod_lt _ (by omega))

/-- With enough fuel, the digits of `n` evaluate back to `n`. -/
theorem natReprAux_val : ∀ f n : Nat, n ≤ f → digitsToNat 0 (natReprAux f n) = n := by
  intro f
  induction f with
  | zero =>
      intro n h
      obtain rfl : n = 0 := by omega
      rfl
  | succ f ih =>
      intro n h
      cases n with
      | zero => rfl
      | succ n =>
          have hq : (n + 1) / 10 ≤ f := by
            have := Nat.div_lt_self (Nat.succ_pos n) (by omega : 1 < 10)
            omega
          rw [show natReprAux (f + 1) (n + 1) =
              natReprAux f ((n + 1) / 10) ++ [digitCh ((n + 1) % 10)] from rfl,
            digitsToNat_append, ih _ hq]
          show ((n + 1) / 10) * 10 + ((digitCh ((n + 1) % 10)).toNat - 48) = n + 1
          rw [digitCh_toNat _ (Nat.mod_lt _ (by omega))]
          omega

/-- `str(n)` evaluates back to `n`. -/
theorem natRepr_val (n : Nat) : digitsToNat 0 (natRepr n) = n := by
  by_cases h : n = 0
  · subst h; rfl
  · simp only [natRepr, h, if_false]
    exact natReprAux_val n n le_rfl

/-- Every character of `str(n)` is a decimal digit. -/
theorem natRepr_all_digits (n : Nat) : ∀ c ∈ natRepr n, isDigCh c = true := by
  by_cases h : n = 0
  · subst h; intro c hc; simp [natRepr] at hc; rw [hc]; rfl
  · simp only [natRepr, h, if_false]
    exact natReprAux_all_digits n n

/-- The digits of a positive number are nonempty and start with a digit
character. -/
theorem natReprAux_head : ∀ f n : Nat, 1 ≤ n → n ≤ f →
    ∃ d t, natReprAux f n = digitCh d :: t ∧ d < 10 := by
  intro f
  induction f with
  | zero => intro n h1 h2; omega
  | succ f ih =>
      intro n h1 h2
      cases n with
      | zero => omega
      | succ n =>
          rw [show natReprAux (f + 1) (n + 1) =
              natReprAux f ((n + 1) / 10) ++ [digitCh ((n + 1) % 10)] from rfl]
          by_cases hq : (n + 1) / 10 = 0
          · have h0 : natReprAux f ((n + 1) / 10) = [] := by
              rw [hq]; cases f <;> rfl
            rw [h0]
            exact ⟨(n + 1) % 10, [], rfl, Nat.mod_lt _ (by omega)⟩
          · have hql : (n + 1) / 10 ≤ f := by
              have := Nat.div_lt_self (Nat.succ_pos n) (by omega : 1 < 10)
              omega
            obtain ⟨d, t, heq, hd⟩ := ih _ (by omega) hql
            exact ⟨d, t ++ [digitCh ((n + 1) % 10)], by rw [heq]; rfl, hd⟩

/-- `str(n)` starts with a digit character. -/
theorem natRepr_head (n : Nat) : ∃ d t, natRepr n = digitCh d :: t ∧ d < 10 := by
  by_cases h : n = 0
  · exact ⟨0, [], by simp [natRepr, h]; rfl, by omega⟩
  · simp only [natRepr, h, if_false]
    exact natReprAux_head n n (by omega) le_rfl

/-- `str(n)` is never empty. -/
theorem natRepr_ne_nil (n : Nat) : natRepr n ≠ [] := by
  obtain ⟨d, t, heq, _⟩ := natRepr_head n
  rw [heq]
  exact List.cons_ne_nil _ _

/-- Greedy digit collection consumes exactly an all-digit prefix when the
following character is not a digit. -/
theorem takeDigits_exact : ∀ (ds rest : List Char), (∀ c ∈ ds, isDigCh c = true) →
    headNonDig rest = true → takeDigits (ds ++ rest) = (ds, rest) := by
  intro ds
  induction ds with
  | nil =>
      intro rest _ hrest
      cases rest with
      | nil => rfl
      | cons c cs =>
          simp only [headNonDig, Bool.not_eq_true'] at hrest
          simp [takeDigits, hrest]
  | cons c cs ih =>
      intro rest hds hrest
      have hc := hds c (by simp)
      simp only [List.cons_append, takeDigits, hc, if_true]
      rw [show cs.append rest = cs ++ rest from rfl,
        ih rest (fun x hx => hds x (by simp [hx])) hrest]

/-! ## Whitespace and head-character lemmas -/

/-- Dropping whitespace ignores an all-whitespace prefix. -/
theorem skipWs_ws_prefix : ∀ (pre l : List Char), (∀ c ∈ pre, isWsCh c = true) →
    skipWs (pre ++ l) = skipWs l := by
  intro pre
  induction pre with
  | nil => intro l _; rfl
  | cons c cs ih =>
      intro l h
      simp only [List.cons_append, skipWs, h c (by simp), if_true]
      exact ih l (fun x hx => h x (by simp [hx]))

/-- Indentation is whitespace. -/
theorem spaces_ws (n : Nat) : ∀ c ∈ spaces n, isWsCh c = true := by
  intro c hc
  rw [List.eq_of_mem_replicate hc]
  rfl

/-- `skipWs` keeps an input that starts with a non-whitespace character. -/
theorem skipWs_nonws (c : Char) (l : List Char) (h : isWsCh c = false) :
    skipWs (c :: l) = c :: l := by
  simp [skipWs, h]

/-- Every printed value starts with a non-whitespace character that is
neither a closing bracket nor a closing brace nor a comma. -/
theorem dumpVal_head (lvl : Nat) (v : Json) :
    ∃ c t, dumpVal lvl v = c :: t ∧ isWsCh c = false ∧
      c ≠ ']' ∧ c ≠ '}' ∧ c ≠ ',' := by
  cases v with
  | null => refine ⟨'n', _, rfl, ?_, ?_, ?_, ?_⟩ <;> decide
  | bool b =>
      cases b with
      | true => refine ⟨'t', _, rfl, ?_, ?_, ?_, ?_⟩ <;> decide
      | false => refine ⟨'f', _, rfl, ?_, ?_, ?_, ?_⟩ <;> decide
  | num n =>
      show ∃ c t, intRepr n = c :: t ∧ _
      by_cases h : n < 0
      · refine ⟨'-', natRepr (-n).toNat, by simp [intRepr, h], ?_, ?_, ?_, ?_⟩ <;> decide
      · obtain ⟨d, t, heq, hd⟩ := natRepr_head n.toNat
        refine ⟨digitCh d, t, by simp [intRepr, h, heq], ?_, ?_, ?_, ?_⟩ <;>
          interval_cases d <;> decide
  | str s => refine ⟨'"', _, rfl, ?_, ?_, ?_, ?_⟩ <;> decide
  | arr xs =>
      cases xs with
      | nil => refine ⟨'[', _, rfl, ?_, ?_, ?_, ?_⟩ <;> decide
      | cons x rest => refine ⟨'[', _, rfl, ?_, ?_, ?_, ?_⟩ <;> decide
  | obj kvs =>
      cases kvs with
      | nil => refine ⟨'{', _, rfl, ?_, ?_, ?_, ?_⟩ <;> decide
      | cons k v rest => refine ⟨'{', _, rfl, ?_, ?_, ?_, ?_⟩ <;> decide

/-- `skipWs` keeps a printed value (with anything after it). -/
theorem skipWs_dumpVal (lvl : Nat) (v : Json) (l : List Char) :
    skipWs (dumpVal lvl v ++ l) = dumpVal lvl v ++ l := by
  obtain ⟨c, t, heq, hws, _, _, _⟩ := dumpVal_head lvl v
  rw [heq, List.cons_append, skipWs_nonws _ _ hws]

/-! ## Hex digits and character escapes -/

/-- Hex digit characters decode to their value. -/
theorem hexVal_hexDigitCh (k : Nat) (h : k < 16) : hexVal (hexDigitCh k) = some k := by
  interval_cases k <;> rfl

/-- A four-digit hex group printed from `v < 0x10000` decodes to `v`. -/
theorem hex4Val_parts (v : Nat) (h : v < 65536) :
    hex4Val (hexDigitCh (v / 4096 % 16)) (hexDigitCh (v / 256 % 16))
      (hexDigitCh (v / 16 % 16)) (hexDigitCh (v % 16)) = some v := by
  have h1 := hexVal_hexDigitCh (v / 4096 % 16) (Nat.mod_lt _ (by omega))
  have h2 := hexVal_hexDigitCh (v / 256 % 16) (Nat.mod_lt _ (by omega))
  have h3 := hexVal_hexDigitCh (v / 16 % 16) (Nat.mod_lt _ (by omega))
  have h4 := hexVal_hexDigitCh (v % 16) (Nat.mod_lt _ (by omega))
  simp only [hex4Val, h1, h2, h3, h4, Option.some.injEq]
  omega

/-- The scalar-value range of a `Char`: below the surrogates or above
them and below `0x110000`. -/
theorem char_toNat_valid (c : Char) :
    c.toNat < 55296 ∨ (57344 ≤ c.toNat ∧ c.toNat < 1114112) := c.valid


/-- Unfolding lemma for the backslash case of the string-body parser. -/
theorem parseStrBody_backslash (fuel : Nat) (rest : List Char) :
    parseStrBody (fuel + 1) ('\\' :: rest) =
      (match unescapeOne rest with
       | none => none
       | some dr => (parseStrBody fuel dr.2).map fun p => (dr.1 :: p.1, p.2)) := rfl

/-- Unfolding lemma for `unescapeU` when the four hex digits decode. -/
theorem unescapeU_cons (a b c2 d : Char) (r2 : List Char) (v : Nat)
    (hv : hex4Val a b c2 d = some v) :
    unescapeU (a :: b :: c2 :: d :: r2) =
      (if 55296 ≤ v ∧ v < 56320 then unescapeLow v r2
       else if 56320 ≤ v ∧ v < 57344 then none
       else some (Char.ofNat v, r2)) := by
  simp only [unescapeU, hv]

/-- Unfolding lemma for `unescapeLow` on a well-formed low surrogate. -/
theorem unescapeLow_cons (h : Nat) (a2 b3 c3 d2 : Char) (r3 : List Char) (l : Nat)
    (hv : hex4Val a2 b3 c3 d2 = some l) :
    unescapeLow h ('\\' :: 'u' :: a2 :: b3 :: c3 :: d2 :: r3) =
      (if 56320 ≤ l ∧ l < 57344 then
        some (Char.ofNat (65536 + (h - 55296) * 1024 + (l - 56320)), r3)
       else none) := by
  simp [unescapeLow, hv]

/-- Decoding a single (non-surrogate) `\uXXXX` escape body. -/
theorem unescapeOne_single (v : Nat) (rest : List Char) (hv : v < 65536)
    (hlo : ¬(55296 ≤ v ∧ v < 56320)) (hhi : ¬(56320 ≤ v ∧ v < 57344)) :
    unescapeOne ('u' :: (hex4 v ++ rest)) = some (Char.ofNat v, rest) := by
  rw [show unescapeOne ('u' :: (hex4 v ++ rest)) = unescapeU (hex4 v ++ rest) from rfl]
  rw [show hex4 v ++ rest = hexDigitCh (v / 4096 % 16) :: hexDigitCh (v / 256 % 16) ::
    hexDigitCh (v / 16 % 16) :: hexDigitCh (v % 16) :: rest from rfl]
  rw [unescapeU_cons _ _ _ _ _ _ (hex4Val_parts v hv), if_neg hlo, if_neg hhi]

/-- Decoding a surrogate-pair escape body. -/
theorem unescapeOne_pair (h l : Nat) (rest : List Char)
    (hh : 55296 ≤ h ∧ h < 56320) (hl : 56320 ≤ l ∧ l < 57344) :
    unescapeOne ('u' :: (hex4 h ++ ('\\' :: ('u' :: (hex4 l ++ rest))))) =
      some (Char.ofNat (65536 + (h - 55296) * 1024 + (l - 56320)), rest) := by
  rw [show unescapeOne ('u' :: (hex4 h ++ ('\\' :: ('u' :: (hex4 l ++ rest))))) =
    unescapeU (hex4 h ++ ('\\' :: ('u' :: (hex4 l ++ rest)))) from rfl]
  rw [show hex4 h ++ ('\\' :: ('u' :: (hex4 l ++ rest))) =
    hexDigitCh (h / 4096 % 16) :: hexDigitCh (h / 256 % 16) ::
    hexDigitCh (h / 16 % 16) :: hexDigitCh (h % 16) ::
    ('\\' :: ('u' :: (hex4 l ++ rest))) from rfl]
  rw [unescapeU_cons _ _ _ _ _ _ (hex4Val_parts h (by omega)), if_pos hh]
  rw [show hex4 l ++ rest = hexDigitCh (l / 4096 % 16) :: hexDigitCh (l / 256 % 16) ::
    hexDigitCh (l / 16 % 16) :: hexDigitCh (l % 16) :: rest from rfl]
  rw [unescapeLow_cons _ _ _ _ _ _ _ (hex4Val_parts l (by omega)), if_pos hl]

/-- Round trip of one escaped character: the parser consumes exactly the
escape `json.dumps` printed for `c` and prepends the decoded `c`. -/
theorem parseStrBody_escapeChar (fuel : Nat) (c : Char) (rest : List Char) :
    parseStrBody (fuel + 1) (escapeChar c ++ rest) =
      (parseStrBody fuel rest).map (fun p => (c :: p.1, p.2)) := by
  by_cases h1 : c = '"'
  · subst h1; rfl
  by_cases h2 : c = '\\'
  · subst h2; rfl
  by_cases h3 : c = '\n'
  · subst h3; rfl
  by_cases h4 : c = '\t'
  · subst h4; rfl
  by_cases h5 : c = '\r'
  · subst h5; rfl
  by_cases h6 : c.toNat = 8
  · have hc : c = Char.ofNat 8 := by rw [← Char.ofNat_toNat c, h6]
    subst hc; rfl
  by_cases h7 : c.toNat = 12
  · have hc : c = Char.ofNat 12 := by rw [← Char.ofNat_toNat c, h7]
    subst hc; rfl
  by_cases h8 : 32 ≤ c.toNat ∧ c.toNat ≤ 126
  · have he : escapeChar c = [c] := by
      simp [escapeChar, h1, h2, h3, h4, h5, h6, h7, h8]
    rw [he, List.cons_append, List.nil_append]
    simp [parseStrBody, h1, h2, show ¬(c.toNat < 32) by omega]
  have hval := char_toNat_valid c
  by_cases h9 : c.toNat < 65536
  · have he : escapeChar c = '\\' :: 'u' :: hex4 c.toNat := by
      simp [escapeChar, h1, h2, h3, h4, h5, h6, h7, h8, h9]
    have hu := unescapeOne_single c.toNat rest h9 (by omega) (by omega)
    rw [Char.ofNat_toNat] at hu
    rw [he, List.cons_append, List.cons_append, parseStrBody_backslash, hu]
  · have he : escapeChar c = '\\' :: 'u' :: hex4 (55296 + (c.toNat - 65536) / 1024) ++
        ('\\' :: 'u' :: hex4 (56320 + (c.toNat - 65536) % 1024)) := by
      simp [escapeChar, h1, h2, h3, h4, h5, h6, h7, h8, h9]
    have hdiv : (c.toNat - 65536) / 1024 < 1024 := by omega
    have hmod : (c.toNat - 65536) % 1024 < 1024 := Nat.mod_lt _ (by omega)
    have hu := unescapeOne_pair (55296 + (c.toNat - 65536) / 1024)
      (56320 + (c.toNat - 65536) % 1024) rest (by omega) (by omega)
    rw [show 65536 + (55296 + (c.toNat - 65536) / 1024 - 55296) * 1024 +
      (56320 + (c.toNat - 65536) % 1024 - 56320) = c.toNat by omega,
      Char.ofNat_toNat] at hu
    rw [he]
    rw [show ('\\' :: 'u' :: hex4 (55296 + (c.toNat - 65536) / 1024) ++
        ('\\' :: 'u' :: hex4 (56320 + (c.toNat - 65536) % 1024))) ++ rest =
      '\\' :: ('u' :: (hex4 (55296 + (c.toNat - 65536) / 1024) ++
        ('\\' :: ('u' :: (hex4 (56320 + (c.toNat - 65536) % 1024) ++ rest))))) by
      simp [List.cons_append, List.append_assoc]]
    rw [parseStrBody_backslash, hu]

/-- Round trip of a whole printed string body: the parser decodes exactly
the escaped characters and stops after the closing quote. -/
theorem parseStrBody_dump : ∀ (s : List Char) (fuel : Nat) (rest : List Char),
    s.length < fuel →
    parseStrBody fuel (escapeStr s ++ ('"' :: rest)) = some (s, rest) := by
  intro s
  induction s with
  | nil =>
      intro fuel rest h
      obtain ⟨f, rfl⟩ : ∃ f, fuel = f + 1 := ⟨fuel - 1, by omega⟩
      rfl
  | cons c cs ih =>
      intro fuel rest h
      obtain ⟨f, rfl⟩ : ∃ f, fuel = f + 1 := ⟨fuel - 1, by omega⟩
      rw [show escapeStr (c :: cs) = escapeChar c ++ escapeStr cs from rfl,
        List.append_assoc, parseStrBody_escapeChar f c (escapeStr cs ++ ('"' :: rest)),
        ih f rest (by simp at h; omega)]
      rfl

/-- Decomposition of printed array items into head value and `arrTail`. -/
theorem dumpArrItems_decomp (lvl : Nat) :
    ∀ (xs : JsonList) (x : Json) (rest : List Char),
    dumpArrItems (lvl + 1) (.cons x xs) ++ ('\n' :: (spaces (2 * lvl) ++ (']' :: rest))) =
      spaces (2 * (lvl + 1)) ++ (dumpVal (lvl + 1) x ++ arrTail lvl xs rest)
  | .nil, x, rest => by
      simp [dumpArrItems, arrTail]
  | .cons y ys, x, rest => by
      have ih := dumpArrItems_decomp lvl ys y rest
      simp only [dumpArrItems, arrTail]
      simp only [List.append_assoc, List.cons_append] at ih ⊢
      rw [ih]

/-- Decomposition of a printed non-empty array. -/
theorem dumpArr_decomp (lvl : Nat) (x : Json) (xs : JsonList) (rest : List Char) :
    dumpVal lvl (.arr (.cons x xs)) ++ rest =
      '[' :: '\n' :: (spaces (2 * (lvl + 1)) ++ (dumpVal (lvl + 1) x ++ arrTail lvl xs rest)) := by
  rw [← dumpArrItems_decomp lvl xs x rest]
  simp [dumpVal, List.append_assoc]

/-- Decomposition of printed object members into first member and `objTail`. -/
theorem dumpObjItems_decomp (lvl : Nat) :
    ∀ (kvs : JsonObj) (k : List Char) (v : Json) (rest : List Char),
    dumpObjItems (lvl + 1) (.cons k v kvs) ++ ('\n' :: (spaces (2 * lvl) ++ ('}' :: rest))) =
      spaces (2 * (lvl + 1)) ++
        (dumpStr k ++ (':' :: ' ' :: (dumpVal (lvl + 1) v ++ objTail lvl kvs rest)))
  | .nil, k, v, rest => by
      simp [dumpObjItems, objTail]
  | .cons k2 v2 kvs, k, v, rest => by
      have ih := dumpObjItems_decomp lvl kvs k2 v2 rest
      simp only [dumpObjItems, objTail]
      simp only [List.append_assoc, List.cons_append] at ih ⊢
      rw [ih]

/-- Decomposition of a printed non-empty object. -/
theorem dumpObj_decomp (lvl : Nat) (k : List Char) (v : Json) (kvs : JsonObj)
    (rest : List Char) :
    dumpVal lvl (.obj (.cons k v kvs)) ++ rest =
      '{' :: '\n' :: (spaces (2 * (lvl + 1)) ++
        (dumpStr k ++ (':' :: ' ' :: (dumpVal (lvl + 1) v ++ objTail lvl kvs rest)))) := by
  rw [← dumpObjItems_decomp lvl kvs k v rest]
  simp [dumpVal, List.append_assoc]

/-- `arrTail` begins with a comma or a newline. -/
theorem arrTail_headNonDig (lvl : Nat) (xs : JsonList) (rest : List Char) :
    headNonDig (arrTail lvl xs rest) = true := by
  cases xs <;> rfl

/-- `objTail` begins with a comma or a newline. -/
theorem objTail_headNonDig (lvl : Nat) (kvs : JsonObj) (rest : List Char) :
    headNonDig (objTail lvl kvs rest) = true := by
  cases kvs <;> rfl

/-- Every escape is at least one character long. -/
theorem escapeChar_length_pos (c : Char) : 1 ≤ (escapeChar c).length := by
  unfold escapeChar
  split_ifs <;> simp [hex4]

/-- Escaping never shortens a string. -/
theorem escapeStr_length_ge : ∀ s : List Char, s.length ≤ (escapeStr s).length := by
  intro s
  induction s with
  | nil => simp [escapeStr]
  | cons c cs ih =>
      have := escapeChar_length_pos c
      simp only [escapeStr, List.length_append, List.length_cons]
      omega

/-- `skipWs` through the newline-and-indent separators of the printer. -/
theorem skipWs_nl_spaces (n : Nat) (X : List Char) :
    skipWs ('\n' :: (spaces n ++ X)) = skipWs X := by
  rw [show '\n' :: (spaces n ++ X) = ('\n' :: spaces n) ++ X from rfl]
  refine skipWs_ws_prefix _ _ ?_
  intro c hc
  rcases List.mem_cons.mp hc with h | h
  · rw [h]; rfl
  · exact spaces_ws n c h

/-- `skipWs` keeps a printed string literal (with anything after it). -/
theorem skipWs_dumpStr (s : List Char) (X : List Char) :
    skipWs (dumpStr s ++ X) = dumpStr s ++ X := by
  rw [show dumpStr s ++ X = '"' :: (escapeStr s ++ (['"'] ++ X)) by simp [dumpStr]]
  rfl

/-- Unfolding lemmas for `parseVal` dispatch heads (all definitional). -/
theorem parseVal_digit_start (fuel : Nat) (d : Nat) (hd : d < 10) (X : List Char) :
    parseVal (fuel + 1) (digitCh d :: X) =
      some (.num (digitsToNat 0 (takeDigits (digitCh d :: X)).1 : Nat),
        (takeDigits (digitCh d :: X)).2) := by
  interval_cases d <;> rfl

theorem parseVal_neg_start (fuel : Nat) (X : List Char) :
    parseVal (fuel + 1) ('-' :: X) =
      (if (takeDigits X).1.isEmpty then none
       else some (.num (-(digitsToNat 0 (takeDigits X).1 : Nat)), (takeDigits X).2)) := rfl

theorem parseVal_quote_start (fuel : Nat) (X : List Char) :
    parseVal (fuel + 1) ('"' :: X) =
      (parseStrBody (fuel + 1) X).map (fun p => (.str p.1, p.2)) := rfl

theorem parseVal_lbracket_start (fuel : Nat) (X : List Char) :
    parseVal (fuel + 1) ('[' :: X) =
      (if (skipWs X).head? = some ']' then some (.arr .nil, (skipWs X).tail)
       else (parseArrItems fuel (skipWs X)).map fun p => (.arr p.1, p.2)) := rfl

theorem parseVal_lbrace_start (fuel : Nat) (X : List Char) :
    parseVal (fuel + 1) ('{' :: X) =
      (if (skipWs X).head? = some '}' then some (.obj .nil, (skipWs X).tail)
       else (parseObjItems fuel (skipWs X)).map fun p => (.obj p.1, p.2)) := rfl

theorem parseArrItems_succ (fuel : Nat) (input : List Char) :
    parseArrItems (fuel + 1) input =
      (match parseVal fuel input with
       | none => none
       | some (v, r) =>
           match skipWs r with
           | ',' :: r2 => (parseArrItems fuel (skipWs r2)).map fun p => (.cons v p.1, p.2)
           | ']' :: r2 => some (.cons v .nil, r2)
           | _ => none) := rfl

theorem parseObjItems_quote (fuel : Nat) (X : List Char) :
    parseObjItems (fuel + 1) ('"' :: X) =
      (match parseStrBody (fuel + 1) X with
       | none => none
       | some (k, r) =>
           match skipWs r with
           | ':' :: r2 =>
               (match parseVal fuel (skipWs r2) with
                | none => none
                | some (v, r3) =>
                    match skipWs r3 with
                    | ',' :: r4 =>
                        (parseObjItems fuel (skipWs r4)).map fun p => (.cons k v p.1, p.2)
                    | '}' :: r4 => some (.cons k v .nil, r4)
                    | _ => none)
           | _ => none) := rfl

/-- `skipWs` through a single space. -/
theorem skipWs_space (X : List Char) : skipWs (' ' :: X) = skipWs X := rfl

/-- Array-items step when a comma follows the parsed value. -/
theorem parseArrItems_comma (fuel : Nat) (input R : List Char) (x : Json)
    (hv : parseVal fuel input = some (x, R)) (Y : List Char)
    (hR : skipWs R = ',' :: Y) :
    parseArrItems (fuel + 1) input =
      (parseArrItems fuel (skipWs Y)).map fun p => (JsonList.cons x p.1, p.2) := by
  rw [parseArrItems_succ, hv]
  dsimp only
  rw [hR]
  rfl

/-- Array-items step when a closing bracket follows the parsed value. -/
theorem parseArrItems_close (fuel : Nat) (input R : List Char) (x : Json)
    (hv : parseVal fuel input = some (x, R)) (Y : List Char)
    (hR : skipWs R = ']' :: Y) :
    parseArrItems (fuel + 1) input = some (JsonList.cons x JsonList.nil, Y) := by
  rw [parseArrItems_succ, hv]
  dsimp only
  rw [hR]
  rfl

/-- Object-members step when a comma follows the parsed member. -/
theorem parseObjItems_comma (fuel : Nat) (k Y R : List Char) (v : Json)
    (hk : k.length < fuel + 1)
    (hv : parseVal fuel (skipWs (' ' :: Y)) = some (v, R)) (Z : List Char)
    (hR : skipWs R = ',' :: Z) :
    parseObjItems (fuel + 1) ('"' :: (escapeStr k ++ ('"' :: (':' :: ' ' :: Y)))) =
      (parseObjItems fuel (skipWs Z)).map fun p => (JsonObj.cons k v p.1, p.2) := by
  rw [parseObjItems_quote, parseStrBody_dump k (fuel + 1) _ hk]
  dsimp only
  rw [skipWs_nonws ':' _ rfl]
  show (match parseVal fuel (skipWs (' ' :: Y)) with
        | none => none
        | some (v2, r3) =>
            match skipWs r3 with
            | ',' :: r4 =>
                (parseObjItems fuel (skipWs r4)).map fun p => (JsonObj.cons k v2 p.1, p.2)
            | '}' :: r4 => some (JsonObj.cons k v2 JsonObj.nil, r4)
            | _ => none) =
      (parseObjItems fuel (skipWs Z)).map fun p => (JsonObj.cons k v p.1, p.2)
  rw [hv]
  dsimp only
  rw [hR]
  rfl

/-- Object-members step when a closing brace follows the parsed member. -/
theorem parseObjItems_close (fuel : Nat) (k Y R : List Char) (v : Json)
    (hk : k.length < fuel + 1)
    (hv : parseVal fuel (skipWs (' ' :: Y)) = some (v, R)) (Z : List Char)
    (hR : skipWs R = '}' :: Z) :
    parseObjItems (fuel + 1) ('"' :: (escapeStr k ++ ('"' :: (':' :: ' ' :: Y)))) =
      some (JsonObj.cons k v JsonObj.nil, Z) := by
  rw [parseObjItems_quote, parseStrBody_dump k (fuel + 1) _ hk]
  dsimp only
  rw [skipWs_nonws ':' _ rfl]
  show (match parseVal fuel (skipWs (' ' :: Y)) with
        | none => none
        | some (v2, r3) =>
            match skipWs r3 with
            | ',' :: r4 =>
                (parseObjItems fuel (skipWs r4)).map fun p => (JsonObj.cons k v2 p.1, p.2)
            | '}' :: r4 => some (JsonObj.cons k v2 JsonObj.nil, r4)
            | _ => none) =
      some (JsonObj.cons k v JsonObj.nil, Z)
  rw [hv]
  dsimp only
  rw [hR]
  rfl

/-- The printer/parser round trip, by induction on the parser fuel:
a printed value followed by a non-digit-headed remainder parses back to
exactly that value, and likewise for the item lists of non-empty
containers. -/
theorem parse_dump_roundtrip : ∀ fuel : Nat,
    (∀ (lvl : Nat) (v : Json) (rest : List Char),
      (dumpVal lvl v ++ rest).length < fuel → headNonDig rest = true →
      parseVal fuel (dumpVal lvl v ++ rest) = some (v, rest)) ∧
    (∀ (lvl : Nat) (x : Json) (xs : JsonList) (rest : List Char),
      (dumpVal (lvl + 1) x ++ arrTail lvl xs rest).length + 1 < fuel →
      parseArrItems fuel (dumpVal (lvl + 1) x ++ arrTail lvl xs rest) =
        some (.cons x xs, rest)) ∧
    (∀ (lvl : Nat) (k : List Char) (v : Json) (kvs : JsonObj) (rest : List Char),
      (dumpStr k ++ (':' :: ' ' :: (dumpVal (lvl + 1) v ++ objTail lvl kvs rest))).length <
        fuel →
      parseObjItems fuel
          (dumpStr k ++ (':' :: ' ' :: (dumpVal (lvl + 1) v ++ objTail lvl kvs rest))) =
        some (.cons k v kvs, rest)) := by
  intro fuel
  induction fuel with
  | zero =>
      refine ⟨?_, ?_, ?_⟩
      · intro lvl v rest h _; omega
      · intro lvl x xs rest h; omega
      · intro lvl k v kvs rest h; omega
  | succ fuel ih =>
      obtain ⟨ihv, iha, iho⟩ := ih
      refine ⟨?_, ?_, ?_⟩
      · intro lvl v rest hlen hnd
        cases v with
        | null => rfl
        | bool b => cases b <;> rfl
        | num n =>
            by_cases hn : n < 0
            · have hdump : dumpVal lvl (.num n) = '-' :: natRepr (-n).toNat := by
                simp [dumpVal, intRepr, hn]
              obtain ⟨d, t, heq, hd⟩ := natRepr_head (-n).toNat
              rw [hdump, List.cons_append, parseVal_neg_start,
                takeDigits_exact (natRepr (-n).toNat) rest (natRepr_all_digits _) hnd]
              rw [if_neg (by rw [heq]; simp)]
              rw [natRepr_val]
              have hv : (-((((-n).toNat : Nat) : Int))) = n := by omega
              rw [hv]
            · have hdump : dumpVal lvl (.num n) = natRepr n.toNat := by
                simp [dumpVal, intRepr, hn]
              obtain ⟨d, t, heq, hd⟩ := natRepr_head n.toNat
              rw [hdump, heq, List.cons_append, parseVal_digit_start fuel d hd]
              rw [show digitCh d :: (t ++ rest) = (digitCh d :: t) ++ rest from rfl, ← heq]
              rw [takeDigits_exact _ rest (natRepr_all_digits _) hnd, natRepr_val]
              have hv : ((n.toNat : Nat) : Int) = n := Int.toNat_of_nonneg (by omega)
              rw [hv]
        | str s =>
            rw [show dumpVal lvl (.str s) ++ rest = '"' :: (escapeStr s ++ ('"' :: rest)) by
              simp [dumpVal, dumpStr]]
            rw [parseVal_quote_start]
            have hsl : s.length < fuel + 1 := by
              have h1 := escapeStr_length_ge s
              have h2 : (dumpVal lvl (.str s) ++ rest).length =
                  (escapeStr s).length + 2 + rest.length := by
                simp [dumpVal, dumpStr]
                omega
              omega
            rw [parseStrBody_dump s (fuel + 1) rest hsl]
            rfl
        | arr xs =>
            cases xs with
            | nil => rfl
            | cons x xs2 =>
                have hL := congrArg List.length (dumpArr_decomp lvl x xs2 rest)
                simp only [List.length_append, List.length_cons, spaces,
                  List.length_replicate] at hL
                rw [dumpArr_decomp lvl x xs2 rest, parseVal_lbracket_start,
                  skipWs_nl_spaces, skipWs_dumpVal]
                obtain ⟨c, t, heq, hws, hbr, hbc, hcm⟩ := dumpVal_head (lvl + 1) x
                rw [if_neg (by rw [heq, List.cons_append]; simp [hbr])]
                rw [iha lvl x xs2 rest
                  (by simp only [List.length_append] at hlen ⊢; omega)]
                rfl
        | obj kvs =>
            cases kvs with
            | nil => rfl
            | cons k v2 kvs2 =>
                have hL := congrArg List.length (dumpObj_decomp lvl k v2 kvs2 rest)
                simp only [List.length_append, List.length_cons, spaces,
                  List.length_replicate] at hL
                rw [dumpObj_decomp lvl k v2 kvs2 rest, parseVal_lbrace_start,
                  skipWs_nl_spaces, skipWs_dumpStr]
                rw [if_neg (by simp [dumpStr])]
                rw [iho lvl k v2 kvs2 rest
                  (by simp only [List.length_append, List.length_cons] at hlen ⊢
                      omega)]
                rfl
      · intro lvl x xs rest hlen
        have hx : parseVal fuel (dumpVal (lvl + 1) x ++ arrTail lvl xs rest) =
            some (x, arrTail lvl xs rest) :=
          ihv (lvl + 1) x (arrTail lvl xs rest) (by omega) (arrTail_headNonDig _ _ _)
        cases xs with
        | nil =>
            refine parseArrItems_close fuel _ _ x hx rest ?_
            rw [show arrTail lvl JsonList.nil rest =
              '\n' :: (spaces (2 * lvl) ++ (']' :: rest)) from rfl,
              skipWs_nl_spaces, skipWs_nonws ']' rest rfl]
        | cons y ys =>
            have hskip : skipWs (arrTail lvl (.cons y ys) rest) =
                ',' :: ('\n' :: (spaces (2 * (lvl + 1)) ++
                  (dumpVal (lvl + 1) y ++ arrTail lvl ys rest))) := by
              rw [show arrTail lvl (JsonList.cons y ys) rest = ',' :: ('\n' ::
                (spaces (2 * (lvl + 1)) ++
                  (dumpVal (lvl + 1) y ++ arrTail lvl ys rest))) from rfl,
                skipWs_nonws ',' _ rfl]
            have hL : (arrTail lvl (.cons y ys) rest).length =
                2 + 2 * (lvl + 1) + ((dumpVal (lvl + 1) y).length +
                  (arrTail lvl ys rest).length) := by
              rw [show arrTail lvl (JsonList.cons y ys) rest = ',' :: ('\n' ::
                (spaces (2 * (lvl + 1)) ++
                  (dumpVal (lvl + 1) y ++ arrTail lvl ys rest))) from rfl]
              simp [spaces]
              omega
            rw [parseArrItems_comma fuel _ _ x hx _ hskip]
            rw [skipWs_nl_spaces, skipWs_dumpVal]
            rw [iha lvl y ys rest
              (by simp only [List.length_append] at hlen ⊢; omega)]
            rfl
      · intro lvl k v kvs rest hlen
        have hkl : k.length < fuel + 1 := by
          have h1 := escapeStr_length_ge k
          have h2 : (dumpStr k).length = (escapeStr k).length + 2 := by
            simp [dumpStr]
          simp only [List.length_append] at hlen
          omega
        have hvl : (dumpVal (lvl + 1) v ++ objTail lvl kvs rest).length < fuel := by
          have h2 : (dumpStr k).length = (escapeStr k).length + 2 := by
            simp [dumpStr]
          simp only [List.length_append, List.length_cons] at hlen ⊢
          omega
        have hYv : parseVal fuel
            (skipWs (' ' :: (dumpVal (lvl + 1) v ++ objTail lvl kvs rest))) =
            some (v, objTail lvl kvs rest) := by
          rw [skipWs_space, skipWs_dumpVal]
          exact ihv (lvl + 1) v (objTail lvl kvs rest) hvl (objTail_headNonDig _ _ _)
        rw [show dumpStr k ++ (':' :: ' ' :: (dumpVal (lvl + 1) v ++ objTail lvl kvs rest)) =
          '"' :: (escapeStr k ++ ('"' ::
            (':' :: ' ' :: (dumpVal (lvl + 1) v ++ objTail lvl kvs rest)))) by
          simp [dumpStr]]
        cases kvs with
        | nil =>
            refine parseObjItems_close fuel k _ _ v hkl hYv rest ?_
            rw [show objTail lvl JsonObj.nil rest =
              '\n' :: (spaces (2 * lvl) ++ ('}' :: rest)) from rfl,
              skipWs_nl_spaces, skipWs_nonws '}' rest rfl]
        | cons k2 v2 kvs2 =>
            have hskip : skipWs (objTail lvl (.cons k2 v2 kvs2) rest) =
                ',' :: ('\n' :: (spaces (2 * (lvl + 1)) ++
                  (dumpStr k2 ++ (':' :: ' ' ::
                    (dumpVal (lvl + 1) v2 ++ objTail lvl kvs2 rest))))) := by
              rw [show objTail lvl (JsonObj.cons k2 v2 kvs2) rest = ',' :: ('\n' ::
                (spaces (2 * (lvl + 1)) ++
                  (dumpStr k2 ++ (':' :: ' ' ::
                    (dumpVal (lvl + 1) v2 ++ objTail lvl kvs2 rest))))) from rfl,
                skipWs_nonws ',' _ rfl]
            have hol : (dumpStr k2 ++ (':' :: ' ' ::
                (dumpVal (lvl + 1) v2 ++ objTail lvl kvs2 rest))).length < fuel := by
              have h3 : (objTail lvl (.cons k2 v2 kvs2) rest).length =
                  2 + 2 * (lvl + 1) + ((dumpStr k2).length +
                    (2 + ((dumpVal (lvl + 1) v2).length +
                      (objTail lvl kvs2 rest).length))) := by
                rw [show objTail lvl (JsonObj.cons k2 v2 kvs2) rest = ',' :: ('\n' ::
                  (spaces (2 * (lvl + 1)) ++
                    (dumpStr k2 ++ (':' :: ' ' ::
                      (dumpVal (lvl + 1) v2 ++ objTail lvl kvs2 rest))))) from rfl]
                simp [spaces]
                omega
              simp only [List.length_append, List.length_cons] at hlen ⊢
              omega
            rw [parseObjItems_comma fuel k _ _ v hkl hYv _ hskip]
            rw [skipWs_nl_spaces, skipWs_dumpStr]
            rw [iho lvl k2 v2 kvs2 rest hol]
            rfl

/-- `json.loads` inverts `json.dumps` on every value of the model. -/
theorem loads_dumps (j : Json) : Json.loads (Json.dumps j) = some j := by
  have h := (parse_dump_roundtrip ((dumpVal 0 j).length + 1)).1 0 j []
    (by rw [List.append_nil]; omega) rfl
  rw [List.append_nil] at h
  show (match parseVal ((dumpVal 0 j).length + 1) (skipWs (dumpVal 0 j)) with
        | some (v, rest) => if skipWs rest = [] then some v else none
        | none => none) = some j
  rw [show skipWs (dumpVal 0 j) = dumpVal 0 j by
        have h2 := skipWs_dumpVal 0 j []
        rwa [List.append_nil] at h2]
  rw [h]
  rfl

/-- C8: a mapping (dict) value returned by a successful tool handler is
serialized with `json.dumps` into the single text block of the result
content, and parsing that block back with `json.loads` reproduces the
original mapping exactly. -/
theorem tool_result_json_roundtrip (reg : ToolRegistry) (hist : List ExecRecord)
    (tc : ToolCall) (tname : String) (tool : Tool) (kvs : JsonObj)
    (hname : tc.name = some tname) (hne : tname ≠ "")
    (hreg : reg tname = some tool)
    (hexec : tool.execute (tc.input.getD (.obj .nil)) = .ok (.obj kvs)) :
    (executeToolCall reg hist tc).1.content = [Json.dumps (.obj kvs)] ∧
    Json.loads (Json.dumps (.obj kvs)) = some (.obj kvs) := by
  constructor
  · simp [executeToolCall, hname, hne, hreg, hexec, serializeToolResult]
  · exact loads_dumps (.obj kvs)

/-- Witness for C8 at a concrete registry, tool and mapping. -/
theorem tool_result_json_roundtrip_witness :
    (executeToolCall witDictReg []
        { name := some "d", toolUseId := none, input := none }).1.content =
      [Json.dumps (.obj witDict)] ∧
    Json.loads (Json.dumps (.obj witDict)) = some (.obj witDict) :=
  tool_result_json_roundtrip witDictReg []
    { name := some "d", toolUseId := none, input := none }
    "d" witDictTool witDict rfl (by decide) rfl rfl
